import Mathlib

/-!
Verification of the archidrop-desktop classification-and-organization pipeline
(`src/preload.ts`): filename parsing (`parseFileName`), destination resolution
(`buildTargetInfo`, `getMonthFolderName`, `getDateFolderName`), retry-based
cleanup (`safeRemoveDir`) and the batch orchestrator (`processFiles`).

Strings are modelled as `List Char` (the contents of a JavaScript string).
The JavaScript regular expressions of `parseFileName` are hand-compiled into
deterministic backtracking matchers over `List Char`, following the exact
pattern list and capture/validation logic of the source.
-/

deriving instance DecidableEq for Except

namespace ArchiDrop

/-- Characters of a Lean string literal, used to write concrete inputs. -/
def str (s : String) : List Char := s.data

/-! ## Character classes of JavaScript regular expressions -/

/-- ECMAScript `\s` (WhiteSpace ∪ LineTerminator), the class used by the
patterns of `parseFileName` and by `String.prototype.trim`. -/
def isWSChar (c : Char) : Bool :=
  decide ((9 ≤ c.toNat ∧ c.toNat ≤ 13) ∨ c.toNat = 32 ∨ c.toNat = 160 ∨
    c.toNat = 0x1680 ∨ (0x2000 ≤ c.toNat ∧ c.toNat ≤ 0x200A) ∨ c.toNat = 0x2028 ∨
    c.toNat = 0x2029 ∨ c.toNat = 0x202F ∨ c.toNat = 0x205F ∨ c.toNat = 0x3000 ∨
    c.toNat = 0xFEFF)

/-- ECMAScript `\d`. -/
def isDigitChar (c : Char) : Bool :=
  decide (48 ≤ c.toNat ∧ c.toNat ≤ 57)

/-- ECMAScript `\w`. -/
def isWordChar (c : Char) : Bool :=
  decide ((65 ≤ c.toNat ∧ c.toNat ≤ 90) ∨ (97 ≤ c.toNat ∧ c.toNat ≤ 122) ∨
    (48 ≤ c.toNat ∧ c.toNat ≤ 57) ∨ c.toNat = 95)

/-- Characters matched by `.` in a regex without the `s` flag: everything but
line terminators. -/
def isDotCh (c : Char) : Bool :=
  decide (¬(c.toNat = 10 ∨ c.toNat = 13 ∨ c.toNat = 0x2028 ∨ c.toNat = 0x2029))

/-- ASCII lower-casing, the relevant fragment of `String.prototype.toLowerCase`
and of case-insensitive (`/i`) literal matching. -/
def ciLower (c : Char) : Char :=
  if 65 ≤ c.toNat ∧ c.toNat ≤ 90 then Char.ofNat (c.toNat + 32) else c

/-- ASCII upper-casing (`String.prototype.toUpperCase` on ASCII). -/
def ciUpper (c : Char) : Char :=
  if 97 ≤ c.toNat ∧ c.toNat ≤ 122 then Char.ofNat (c.toNat - 32) else c

/-! ## Whitespace trimming (`String.prototype.trim`) -/

/-- Remove trailing JS whitespace. -/
def rstripWS (l : List Char) : List Char :=
  (l.reverse.dropWhile isWSChar).reverse

/-- `String.prototype.trim`: strip JS whitespace from both ends. -/
def jsTrim (l : List Char) : List Char :=
  rstripWS (l.dropWhile isWSChar)

/-- `parseInt(s, 10)` on a string of decimal digits. -/
def parseDigits (l : List Char) : Nat :=
  l.foldl (fun a c => a * 10 + (c.toNat - 48)) 0

/-! ## Month tables (from `preload.ts`) -/

/-- `MONTH_NAMES` (index 0 is the empty placeholder). -/
def MONTH_NAMES : List (List Char) :=
  [str "", str "Enero", str "Febrero", str "Marzo", str "Abril", str "Mayo",
   str "Junio", str "Julio", str "Agosto", str "Septiembre", str "Octubre",
   str "Noviembre", str "Diciembre"]

/-- `MONTH_NAMES_LOWER`. -/
def MONTH_NAMES_LOWER : List (List Char) :=
  [str "", str "enero", str "febrero", str "marzo", str "abril", str "mayo",
   str "junio", str "julio", str "agosto", str "septiembre", str "octubre",
   str "noviembre", str "diciembre"]

/-- The `spanishMonths` lookup object of `parseFileName`. -/
def spanishMonths : List (List Char × Nat) :=
  [(str "enero", 1), (str "febrero", 2), (str "marzo", 3), (str "abril", 4),
   (str "mayo", 5), (str "junio", 6), (str "julio", 7), (str "agosto", 8),
   (str "septiembre", 9), (str "octubre", 10), (str "noviembre", 11),
   (str "diciembre", 12),
   (str "ene", 1), (str "feb", 2), (str "mar", 3), (str "abr", 4),
   (str "may", 5), (str "jun", 6), (str "jul", 7), (str "ago", 8),
   (str "sep", 9), (str "oct", 10), (str "nov", 11), (str "dic", 12)]

/-- `spanishMonths[monthName] || 0`. -/
def monthLookup (k : List Char) : Nat :=
  (spanishMonths.lookup k).getD 0

/-! ## Path helpers (`path` module, restricted to the uses in the source) -/

/-- `path.join(a, b)`. -/
def pjoin (a b : List Char) : List Char :=
  a ++ '/' :: b

/-- `path.basename(p)`: the part after the last separator. -/
def basenameL (p : List Char) : List Char :=
  (p.reverse.takeWhile (fun c => !(c == '/'))).reverse

/-- `path.extname(name)`: from the last `'.'` to the end, empty when there is
no dot or when the only dot starts the name. -/
def extnameL (s : List Char) : List Char :=
  let p := s.reverse.takeWhile (fun c => !(c == '.'))
  if p.length = s.length then []
  else if p.length + 1 = s.length then []
  else '.' :: p.reverse

/-- `path.basename(name, path.extname(name))`: drop the extension suffix. -/
def baseNoExt (s : List Char) : List Char :=
  s.take (s.length - (extnameL s).length)

/-- The extension-stripping `fileName.replace(/\.[^.]*$/, '')` at the top of
`parseFileName`: remove everything from the last dot on. -/
def stripExt (s : List Char) : List Char :=
  match s.reverse.dropWhile (fun c => !(c == '.')) with
  | [] => s
  | _ :: t => t.reverse

/-- Fuel-based helper for `natStr` (the fuel only needs to dominate the
number of digits; it is instantiated with the number itself). -/
def natStrAux : Nat → Nat → List Char
  | 0, n => [Char.ofNat (48 + n % 10)]
  | fuel + 1, n =>
    if n < 10 then [Char.ofNat (48 + n)]
    else natStrAux fuel (n / 10) ++ [Char.ofNat (48 + n % 10)]

/-- Decimal digits of a natural number (`Number.prototype.toString`). -/
def natStr (n : Nat) : List Char :=
  natStrAux n n

/-- `s.padStart(2, '0')`. -/
def pad2 (s : List Char) : List Char :=
  List.replicate (2 - s.length) '0' ++ s

/-! ## Hand-compiled regex matchers

Each JavaScript pattern of `parseFileName` is compiled to a deterministic
function returning the captures the backtracking engine would produce.
`jsAlt` is ordered alternation (first alternative wins, the second is tried
only on failure of the whole continuation of the first). -/

/-- Ordered alternation of the regex engine. -/
def jsAlt (a : Option α) (b : Unit → Option α) : Option α :=
  match a with
  | some x => some x
  | none => b ()

/-- Shorthand for the two whitespace spans of a greedy `\s*` / `\s+`. -/
def dropWS (r : List Char) : List Char := r.dropWhile isWSChar

/-- Greedy run of `\s`. -/
def takeWS (r : List Char) : List Char := r.takeWhile isWSChar

/-- `\s+(\d{4})$`: mandatory whitespace, then exactly four digits ending the
input. Returns the year capture. -/
def p1YearEnd (r : List Char) : Option (List Char) :=
  if takeWS r = [] then none
  else if (dropWS r).length = 4 ∧ (dropWS r).all isDigitChar = true then
    some (dropWS r)
  else none

/-- `(?:de|del)\s+(\d{4})$` under the `/i` flag: the `de` alternative is tried
first with its whole continuation, then `del`. -/
def p1DeYear (r : List Char) : Option (List Char) :=
  jsAlt
    (match r with
     | d :: e :: r2 =>
       if ciLower d == 'd' && ciLower e == 'e' then p1YearEnd r2 else none
     | _ => none)
    (fun _ => match r with
     | d :: e :: l :: r2 =>
       if ciLower d == 'd' && ciLower e == 'e' && ciLower l == 'l' then p1YearEnd r2
       else none
     | _ => none)

/-- `\s*(\d{1,2})\s+de\s+(\w+)\s+(?:de|del)\s+(\d{4})$` — the part of pattern 1
after its hyphen. Returns (day, month word, year) captures. -/
def p1AfterHyphen (r : List Char) : Option (List Char × List Char × List Char) :=
  let r1 := dropWS r
  let ds := r1.takeWhile isDigitChar
  let r2 := r1.dropWhile isDigitChar
  if ds = [] ∨ 2 < ds.length then none
  else if takeWS r2 = [] then none
  else
    match dropWS r2 with
    | d :: e :: r4 =>
      if ciLower d == 'd' && ciLower e == 'e' then
        if takeWS r4 = [] then none
        else
          let r5 := dropWS r4
          let mw := r5.takeWhile isWordChar
          let r6 := r5.dropWhile isWordChar
          if mw = [] then none
          else if takeWS r6 = [] then none
          else
            match p1DeYear (dropWS r6) with
            | some ys => some (ds, mw, ys)
            | none => none
      else none
    | _ => none

/-- `\s*-\s*...`: the separator of patterns 1–3 followed by the given tail
matcher. -/
def p1Sep (r : List Char) : Option (List Char × List Char × List Char) :=
  match dropWS r with
  | '-' :: r2 => p1AfterHyphen r2
  | _ => none

/-- The lazy `^(.+?)` loop of pattern 1: the shortest non-empty diary prefix
(of `.`-matchable characters) whose remainder matches the rigid tail wins. -/
def p1Go (pre : List Char) : List Char → Option (List Char × List Char × List Char × List Char)
  | [] => none
  | c :: r =>
    if isDotCh c then
      match p1Sep r with
      | some (ds, mw, ys) => some (pre ++ [c], ds, mw, ys)
      | none => p1Go (pre ++ [c]) r
    else none

/-- Pattern 1: `/^(.+?)\s*-\s*(\d{1,2})\s+de\s+(\w+)\s+(?:de|del)\s+(\d{4})$/i`.
Captures (diary, day, month word, year). -/
def p1Match (s : List Char) : Option (List Char × List Char × List Char × List Char) :=
  p1Go [] s

/-- `\s*-\s*(\w+)\s+(\d{4})$`: tail of patterns 2 and 3. -/
def p2Tail (r : List Char) : Option (List Char × List Char) :=
  match dropWS r with
  | '-' :: r2 =>
    let r3 := dropWS r2
    let mw := r3.takeWhile isWordChar
    let r4 := r3.dropWhile isWordChar
    if mw = [] then none
    else if takeWS r4 = [] then none
    else if (dropWS r4).length = 4 ∧ (dropWS r4).all isDigitChar = true then
      some (mw, dropWS r4)
    else none
  | _ => none

/-- The lazy `^(.+?)` loop of patterns 2 and 3. -/
def p2Go (pre : List Char) : List Char → Option (List Char × List Char × List Char)
  | [] => none
  | c :: r =>
    if isDotCh c then
      match p2Tail r with
      | some (mw, ys) => some (pre ++ [c], mw, ys)
      | none => p2Go (pre ++ [c]) r
    else none

/-- Patterns 2 and 3 (textually identical): `/^(.+?)\s*-\s*(\w+)\s+(\d{4})$/i`.
Captures (diary, month word, year). -/
def p2Match (s : List Char) : Option (List Char × List Char × List Char) :=
  p2Go [] s

/-- `[_-]` class of the fallback patterns. -/
def sepCh (c : Char) : Bool :=
  c == '-' || c == '_'

/-- `(\d{1,2})[_-](.+)` with greedy two-digit preference. -/
def p4DayDiary (r : List Char) : Option (List Char × List Char) :=
  jsAlt
    (match r with
     | a :: b :: s :: r2 =>
       if isDigitChar a && isDigitChar b && sepCh s then
         if (r2.takeWhile isDotCh).length = 0 then none
         else some ([a, b], r2.takeWhile isDotCh)
       else none
     | _ => none)
    (fun _ => match r with
     | a :: s :: r2 =>
       if isDigitChar a && sepCh s then
         if (r2.takeWhile isDotCh).length = 0 then none
         else some ([a], r2.takeWhile isDotCh)
       else none
     | _ => none)

/-- `(\d{1,2})[_-](\d{1,2})[_-](.+)`: month, then day and diary. -/
def p4MonRest (r : List Char) : Option (List Char × List Char × List Char) :=
  jsAlt
    (match r with
     | a :: b :: s :: r2 =>
       if isDigitChar a && isDigitChar b && sepCh s then
         (p4DayDiary r2).map (fun p => ([a, b], p.1, p.2))
       else none
     | _ => none)
    (fun _ => match r with
     | a :: s :: r2 =>
       if isDigitChar a && sepCh s then
         (p4DayDiary r2).map (fun p => ([a], p.1, p.2))
       else none
     | _ => none)

/-- Pattern 4 at a fixed start: `(\d{4})[_-](\d{1,2})[_-](\d{1,2})[_-](.+)`.
Captures (year, month, day, diary). -/
def p4At (r : List Char) : Option (List Char × List Char × List Char × List Char) :=
  match r with
  | a :: b :: c :: d :: s :: r2 =>
    if isDigitChar a && isDigitChar b && isDigitChar c && isDigitChar d && sepCh s then
      (p4MonRest r2).map (fun p => ([a, b, c, d], p.1, p.2.1, p.2.2))
    else none
  | _ => none

/-- Left-to-right scan of an unanchored pattern: the leftmost start wins. -/
def scanL (f : List Char → Option α) : List Char → Option α
  | [] => f []
  | c :: r => jsAlt (f (c :: r)) (fun _ => scanL f r)

/-- Pattern 4: `/(\d{4})[_-](\d{1,2})[_-](\d{1,2})[_-](.+)/`. -/
def p4Match (s : List Char) : Option (List Char × List Char × List Char × List Char) :=
  scanL p4At s

/-- Pattern 5 at a fixed start: `(\d{4})(\d{2})(\d{2})[_-](.+)`. -/
def p5At (r : List Char) : Option (List Char × List Char × List Char × List Char) :=
  match r with
  | a :: b :: c :: d :: e :: f :: g :: h :: s :: r2 =>
    if isDigitChar a && isDigitChar b && isDigitChar c && isDigitChar d &&
        isDigitChar e && isDigitChar f && isDigitChar g && isDigitChar h && sepCh s then
      if (r2.takeWhile isDotCh).length = 0 then none
      else some ([a, b, c, d], [e, f], [g, h], r2.takeWhile isDotCh)
    else none
  | _ => none

/-- Pattern 5: `/(\d{4})(\d{2})(\d{2})[_-](.+)/`. -/
def p5Match (s : List Char) : Option (List Char × List Char × List Char × List Char) :=
  scanL p5At s

/-- Final `(\d{1,2})` of pattern 6 (greedy, nothing follows). -/
def p6D12 (r : List Char) : Option (List Char) :=
  jsAlt
    (match r with
     | a :: b :: _ => if isDigitChar a && isDigitChar b then some [a, b] else none
     | _ => none)
    (fun _ => match r with
     | a :: _ => if isDigitChar a then some [a] else none
     | _ => none)

/-- `(\d{1,2})[_-](\d{1,2})` of pattern 6. -/
def p6MonDay (r : List Char) : Option (List Char × List Char) :=
  jsAlt
    (match r with
     | a :: b :: s :: r2 =>
       if isDigitChar a && isDigitChar b && sepCh s then
         (p6D12 r2).map (fun d => ([a, b], d))
       else none
     | _ => none)
    (fun _ => match r with
     | a :: s :: r2 =>
       if isDigitChar a && sepCh s then (p6D12 r2).map (fun d => ([a], d)) else none
     | _ => none)

/-- `[_-](\d{4})[_-](\d{1,2})[_-](\d{1,2})`: tail of pattern 6 (no end
anchor, trailing characters are allowed). -/
def p6Tail (r : List Char) : Option (List Char × List Char × List Char) :=
  match r with
  | s :: a :: b :: c :: d :: s2 :: r2 =>
    if sepCh s && isDigitChar a && isDigitChar b && isDigitChar c && isDigitChar d &&
        sepCh s2 then
      (p6MonDay r2).map (fun p => ([a, b, c, d], p.1, p.2))
    else none
  | _ => none

/-- The greedy `(.+)` loop of pattern 6: the longest extension is tried before
matching the tail at the current position. -/
def p6Go (pre : List Char) : List Char → Option (List Char × List Char × List Char × List Char)
  | [] => none
  | c :: r2 =>
    jsAlt (if isDotCh c then p6Go (pre ++ [c]) r2 else none)
      (fun _ =>
        if pre.length = 0 then none
        else (p6Tail (c :: r2)).map (fun p => (pre, p.1, p.2.1, p.2.2)))

/-- Pattern 6: `/(.+)[_-](\d{4})[_-](\d{1,2})[_-](\d{1,2})/`.
Captures (diary, year, month, day). -/
def p6Match (s : List Char) : Option (List Char × List Char × List Char × List Char) :=
  scanL (fun r => p6Go [] r) s

/-! ## `parseFileName` -/

/-- The `FileInfo` interface of `preload.ts`. The `month` field is an
arbitrary integer because `buildTargetInfo` is total in it. -/
structure FileInfo where
  year : Nat
  month : Int
  diary : List Char
  day : Option Nat
deriving DecidableEq, Repr

/-- Field extraction for pattern index 0 (day-level pattern). -/
def extract0 (n : List Char) : Option FileInfo :=
  (p1Match n).map (fun q =>
    { year := parseDigits q.2.2.2,
      month := (monthLookup (q.2.2.1.map ciLower) : Int),
      diary := jsTrim q.1,
      day := some (parseDigits q.2.1) })

/-- Field extraction for pattern indices 1 and 2 (month-level pattern). -/
def extract12 (n : List Char) : Option FileInfo :=
  (p2Match n).map (fun q =>
    { year := parseDigits q.2.2,
      month := (monthLookup (q.2.1.map ciLower) : Int),
      diary := jsTrim q.1,
      day := none })

/-- Field extraction for pattern index 3 (`YYYY-MM-DD_Diary`). -/
def extract3 (n : List Char) : Option FileInfo :=
  (p4Match n).map (fun q =>
    { year := parseDigits q.1,
      month := (parseDigits q.2.1 : Int),
      diary := jsTrim q.2.2.2,
      day := some (parseDigits q.2.2.1) })

/-- Field extraction for pattern index 4 (`YYYYMMDD_Diary`). -/
def extract4 (n : List Char) : Option FileInfo :=
  (p5Match n).map (fun q =>
    { year := parseDigits q.1,
      month := (parseDigits q.2.1 : Int),
      diary := jsTrim q.2.2.2,
      day := some (parseDigits q.2.2.1) })

/-- Field extraction for pattern index 5 (`Diary_YYYY-MM-DD`). -/
def extract5 (n : List Char) : Option FileInfo :=
  (p6Match n).map (fun q =>
    { year := parseDigits q.2.1,
      month := (parseDigits q.2.2.1 : Int),
      diary := jsTrim q.1,
      day := some (parseDigits q.2.2.2) })

/-- The ordered pattern list of `parseFileName` (patterns 2 and 3 are
textually identical in the source, hence the repeated entry). -/
def extractors : List (List Char → Option FileInfo) :=
  [extract0, extract12, extract12, extract3, extract4, extract5]

/-- The validation block of `parseFileName`: year in `[1900, currentYear]`,
month in `[1,12]`, non-empty trimmed diary, captured day in `[1,31]`. -/
def validInfo (cy : Nat) (r : FileInfo) : Bool :=
  (decide (1900 ≤ r.year) && decide (r.year ≤ cy)) &&
  (decide (1 ≤ r.month) && decide (r.month ≤ 12)) &&
  (!r.diary.isEmpty && decide (0 < (jsTrim r.diary).length)) &&
  (match r.day with
   | none => true
   | some d => decide (1 ≤ d) && decide (d ≤ 31))

/-- The pattern loop of `parseFileName`: first syntactic match that also
passes validation wins; a failed validation falls through to the next
pattern. -/
def tryPatterns (cy : Nat) : List (List Char → Option FileInfo) → List Char → Option FileInfo
  | [], _ => none
  | f :: fs, n =>
    match f n with
    | some r =>
      if validInfo cy r then some { r with diary := jsTrim r.diary }
      else tryPatterns cy fs n
    | none => tryPatterns cy fs n

/-- `parseFileName` of `preload.ts`, parametrised by the current calendar
year `cy` (`new Date().getFullYear()`). -/
def parseFileName (cy : Nat) (fileName : List Char) : Option FileInfo :=
  tryPatterns cy extractors (stripExt fileName)

example :
    parseFileName 2026 (str "La Tercera - 11 de diciembre de 1989") =
      some ⟨1989, 12, str "La Tercera", some 11⟩ := by decide

example :
    parseFileName 2026 (str "TV Grama - Diciembre 1989") =
      some ⟨1989, 12, str "TV Grama", none⟩ := by decide

example : parseFileName 2026 (str "randomfile") = none := by decide

example :
    parseFileName 2026 (str "2001-5-7-El Sur") =
      some ⟨2001, 5, str "El Sur", some 7⟩ := by decide

example :
    parseFileName 2026 (str "19891211_La Epoca") =
      some ⟨1989, 12, str "La Epoca", some 11⟩ := by decide

example :
    parseFileName 2026 (str "El Sur-1989-12-31") =
      some ⟨1989, 12, str "El Sur", some 31⟩ := by decide

/-! ## Destination resolution (`buildTargetInfo` and helpers) -/

/-- The `TargetInfo` interface. -/
structure TargetInfo where
  fullPath : List Char
  label : List Char
  dateFolderName : Option (List Char)
deriving DecidableEq, Repr

/-- `getMonthFolderName`: `"<2-digit month> - <Spanish name>"` for months in
`[1,12]`, otherwise the clamped `"<NN> - Mes"` fallback. -/
def getMonthFolderName (month : Int) : List Char :=
  if 1 ≤ month ∧ month ≤ 12 then
    pad2 (natStr month.toNat) ++ str " - " ++ (MONTH_NAMES.getD month.toNat [])
  else
    pad2 (natStr (max 0 (min month 99)).toNat) ++ str " - Mes"

/-- `getDateFolderName`: `undefined` outside a valid month/positive year;
`"<day> de <lowercase month> de <year>"` for a truthy day in `[1,31]`, else
`"<Capitalized month> de <year>"`. -/
def getDateFolderName (info : FileInfo) : Option (List Char) :=
  if ¬(1 ≤ info.month ∧ info.month ≤ 12) ∨ info.year = 0 then none
  else
    let mn := MONTH_NAMES_LOWER.getD info.month.toNat []
    if mn.isEmpty then none
    else
      match info.day with
      | some d =>
        if d ≠ 0 ∧ 1 ≤ d ∧ d ≤ 31 then
          some (natStr d ++ str " de " ++ mn ++ str " de " ++ natStr info.year)
        else some (ciUpper (mn.headD ' ') :: mn.tail ++ str " de " ++ natStr info.year)
      | none => some (ciUpper (mn.headD ' ') :: mn.tail ++ str " de " ++ natStr info.year)

/-- `buildTargetInfo`. -/
def buildTargetInfo (archivosPath : List Char) (info : FileInfo)
    (useDateFolder : Bool) : TargetInfo :=
  let monthFolder := getMonthFolderName info.month
  let baseTarget :=
    pjoin (pjoin (pjoin archivosPath (natStr info.year)) monthFolder) info.diary
  let dfn : Option (List Char) :=
    if useDateFolder then getDateFolderName info else none
  let fullPath :=
    match dfn with
    | some c => pjoin baseTarget c
    | none => baseTarget
  let labelParts :=
    [natStr info.year, monthFolder, info.diary] ++
      (match dfn with
       | some c => [c]
       | none => [])
  { fullPath := fullPath,
    label := List.intercalate (str " / ") labelParts,
    dateFolderName := dfn }

example :
    (buildTargetInfo (str "/d/Archivos") ⟨1989, 12, str "La Tercera", some 11⟩ false).label =
      str "1989 / 12 - Diciembre / La Tercera" := by decide

example :
    (buildTargetInfo (str "/d/Archivos") ⟨1989, 12, str "La Tercera", some 11⟩ true).dateFolderName =
      some (str "11 de diciembre de 1989") := by decide

example :
    (buildTargetInfo (str "/d/Archivos") ⟨1989, 12, str "TV Grama", none⟩ true).dateFolderName =
      some (str "Diciembre de 1989") := by decide

/-! ## `safeRemoveDir` (SafeRemover) -/

/-- One batch-loop model of `safeRemoveDir`. `pathEx` and `rm` are the
outcomes of `fs.pathExists` / `fs.remove` at each attempt number; the result
collects (number of `fs.remove` calls, the waits inserted between attempts).
The surrounding `try/catch` never lets an error escape, so the result type
has no error case: the function always returns normally. -/
def srLoop (pathEx : Nat → Bool) (rm : Nat → Except (List Char) Unit)
    (maxRetries : Nat) : Nat → Nat → Nat → List Nat → Nat × List Nat
  | 0, _, calls, waits => (calls, waits)
  | fuel + 1, attempt, calls, waits =>
    if pathEx attempt then
      match rm attempt with
      | .ok _ => (calls + 1, waits)
      | .error _ =>
        if attempt = maxRetries then (calls + 1, waits)
        else srLoop pathEx rm maxRetries fuel (attempt + 1)
          (calls + 1) (waits ++ [attempt * 2000])
    else (calls, waits)

/-- `safeRemoveDir(dirPath, maxRetries)`: up to `maxRetries` removal attempts
with waits of `attempt * 2000` ms between consecutive attempts. -/
def safeRemoveDir (pathEx : Nat → Bool) (rm : Nat → Except (List Char) Unit)
    (maxRetries : Nat) : Nat × List Nat :=
  srLoop pathEx rm maxRetries maxRetries 1 0 []

/-- The default `maxRetries` of `safeRemoveDir`. -/
def defaultMaxRetries : Nat := 5

example :
    safeRemoveDir (fun _ => true) (fun _ => .error (str "EBUSY")) defaultMaxRetries =
      (5, [2000, 4000, 6000, 8000]) := by decide

/-! ## The batch orchestrator (`processFiles`)

External effects (filesystem, child processes) are abstracted by a `World` of
oracles, keyed by the file name being processed; the orchestrator's own
control flow — precondition checks, selection filtering, progress emission,
per-file error accumulation — is translated directly from the source. A trace
of filesystem-mutating `Effect`s is collected so that "no files touched" is
expressible. -/

/-- The `ProcessingProgress` interface. -/
structure ProcessingProgress where
  current : Nat
  total : Nat
  currentFile : List Char
  status : List Char
  percentage : ℚ
deriving DecidableEq, Repr

/-- The `ProcessingResult` interface. -/
structure ProcessingResult where
  success : Bool
  processed : Nat
  errors : List (List Char)
  error : Option (List Char)
deriving DecidableEq, Repr

/-- Filesystem-mutating steps performed while processing one file. -/
inductive Effect where
  | ensuredTemp (name : List Char)
  | extracted (name : List Char)
  | organized (name : List Char)
  | removedTemp (name : List Char)
  | deletedOriginal (name : List Char)
deriving DecidableEq, Repr

/-- Outcomes of the external world: existence checks, the input-directory
listing, and per-file results of the effectful steps of `processFile`. -/
structure World where
  pathExists : List Char → Bool
  dropboxPath : List Char
  listing : List (List Char)
  isFile : List Char → Bool
  ensureTempResult : List Char → Except (List Char) Unit
  extractResult : List Char → Except (List Char) Unit
  extractedEntries : List Char → List (List Char)
  organizeResult : List Char → Except (List Char) Unit
  deleteResult : List Char → Except (List Char) Unit

/-- The supported archive extensions. -/
def supportedExts : List (List Char) :=
  [str ".zip", str ".rar", str ".7z"]

/-- `getFilesToProcess`: files of the input directory with a supported
extension whose extension-less base name parses. Returns full paths. -/
def filesToProcessM (w : World) (cy : Nat) (inputPath : List Char) : List (List Char) :=
  (w.listing.filter (fun item =>
    w.isFile item &&
    supportedExts.contains ((extnameL item).map ciLower) &&
    (parseFileName cy (baseNoExt item)).isSome)).map (pjoin inputPath)

/-- `processFile`: parse the extension-less base name, create the temp
directory, extract, require a non-empty extraction, organize, clean up.
Returns the thrown error message (if any) and the effect trace; the
`safeRemoveDir` cleanup runs on success and on every failure inside the
`try`. -/
def processFileM (w : World) (cy : Nat) (name : List Char) :
    Except (List Char) Unit × List Effect :=
  let base := baseNoExt name
  match parseFileName cy base with
  | none => (.error (str "No se pudo parsear el nombre del archivo: " ++ base), [])
  | some _ =>
    match w.ensureTempResult name with
    | .error e => (.error e, [.removedTemp name])
    | .ok _ =>
      match w.extractResult name with
      | .error e => (.error e, [.ensuredTemp name, .removedTemp name])
      | .ok _ =>
        if (w.extractedEntries name).isEmpty then
          (.error (str "No se extrajeron archivos del archivo comprimido"),
           [.ensuredTemp name, .extracted name, .removedTemp name])
        else
          match w.organizeResult name with
          | .error e => (.error e, [.ensuredTemp name, .extracted name, .removedTemp name])
          | .ok _ =>
            (.ok (), [.ensuredTemp name, .extracted name, .organized name,
              .removedTemp name])

/-- The files the batch will iterate over: processable files of the input
directory restricted to the caller's selection. -/
def selectedFilesM (w : World) (cy : Nat) (inputPath : List Char)
    (selectedFiles : List (List Char)) : List (List Char) :=
  (filesToProcessM w cy inputPath).filter
    (fun fp => selectedFiles.contains (basenameL fp))

/-- The per-file progress record emitted before processing file `i` of `n`. -/
def fileProgress (n : Nat) (i : Nat) (name : List Char) : ProcessingProgress :=
  { current := i, total := n, currentFile := name,
    status := str "Procesando archivo...",
    percentage := ((i : ℚ) / (n : ℚ)) * 100 }

/-- The per-file loop of `processFiles`: processed count, error strings,
progress events and effects, accumulated in file order starting at index
`i`. -/
def runBatch (w : World) (cy : Nat) (deleteOriginals : Bool) (n : Nat) :
    List (List Char) → Nat → Nat × List (List Char) × List ProcessingProgress × List Effect
  | [], _ => (0, [], [], [])
  | fp :: rest, i =>
    let name := basenameL fp
    let step : Nat × List (List Char) × List Effect :=
      match processFileM w cy name with
      | (.ok _, effs) =>
        if deleteOriginals then
          match w.deleteResult name with
          | .ok _ => (1, [], effs ++ [.deletedOriginal name])
          | .error _ =>
            (1, [str "Advertencia: No se pudo eliminar el archivo original " ++ name],
             effs)
        else (1, [], effs)
      | (.error e, effs) =>
        (0, [str "Error procesando " ++ name ++ str ": " ++ e], effs)
    let tail := runBatch w cy deleteOriginals n rest (i + 1)
    (step.1 + tail.1, step.2.1 ++ tail.2.1,
     fileProgress n i name :: tail.2.2.1, step.2.2 ++ tail.2.2.2)

/-- `processFiles(inputPath, selectedFiles, deleteOriginals, useDateFolder,
onProgress)`: precondition checks, selection filter, the per-file loop and
the surrounding progress events. Returns the result together with the
emitted progress stream and the effect trace. -/
def processFilesM (w : World) (cy : Nat) (inputPath : List Char)
    (selectedFiles : List (List Char)) (deleteOriginals : Bool) :
    ProcessingResult × List ProcessingProgress × List Effect :=
  if !w.pathExists inputPath then
    ({ success := false, processed := 0, errors := [],
       error := some (str "La carpeta de entrada no existe: " ++ inputPath) }, [], [])
  else if !w.pathExists w.dropboxPath then
    ({ success := false, processed := 0, errors := [],
       error := some (str "La carpeta de Dropbox no existe: " ++ w.dropboxPath) }, [], [])
  else
    let files := selectedFilesM w cy inputPath selectedFiles
    if files.isEmpty then
      ({ success := false, processed := 0, errors := [],
         error := some (str "No se encontraron archivos seleccionados para procesar") },
       [], [])
    else
      let n := files.length
      let initProg : ProcessingProgress :=
        { current := 0, total := n, currentFile := [],
          status := str "Iniciando procesamiento...", percentage := 0 }
      let finalProg : ProcessingProgress :=
        { current := n, total := n, currentFile := [],
          status := str "Procesamiento completado", percentage := 100 }
      let body := runBatch w cy deleteOriginals n files 0
      ({ success := true, processed := body.1, errors := body.2.1, error := none },
       initProg :: body.2.2.1 ++ [finalProg], body.2.2.2)

/-- Whether `processFile` succeeds for a full path (per-file success of the
batch loop). -/
def fileOk (w : World) (cy : Nat) (fp : List Char) : Bool :=
  match (processFileM w cy (basenameL fp)).1 with
  | .ok _ => true
  | .error _ => false

/-- The error/warning strings the batch loop appends for one file: one
`"Error procesando <name>: <detail>"` on failure; one
`"Advertencia: ..."` when only the original's deletion fails; nothing
otherwise. -/
def perFileErrors (w : World) (cy : Nat) (del : Bool) (fp : List Char) :
    List (List Char) :=
  match (processFileM w cy (basenameL fp)).1 with
  | .error e => [str "Error procesando " ++ basenameL fp ++ str ": " ++ e]
  | .ok _ =>
    if del then
      match w.deleteResult (basenameL fp) with
      | .error _ =>
        [str "Advertencia: No se pudo eliminar el archivo original " ++ basenameL fp]
      | .ok _ => []
    else []

/-! ## General helper lemmas -/

theorem intercalate3 (s a b c : List Char) :
    List.intercalate s [a, b, c] = a ++ s ++ b ++ s ++ c := by
  simp [List.intercalate]

theorem intercalate4 (s a b c d : List Char) :
    List.intercalate s [a, b, c, d] = a ++ s ++ b ++ s ++ c ++ s ++ d := by
  simp [List.intercalate]

theorem monthLower_not_empty (k : Nat) (h1 : 1 ≤ k) (h2 : k ≤ 12) :
    (MONTH_NAMES_LOWER.getD k []).isEmpty = false := by
  interval_cases k <;> decide

/-! ## Claim C7: `safeRemoveDir` retry exhaustion -/

/-- C7: on a directory whose removal always throws, `safeRemoveDir` with the
default `maxRetries = 5` calls the removal exactly 5 times, waits
`attempt * 2000` ms between consecutive attempts, and returns normally (the
model's return type has no escaping-error case because the source catches
every error). -/
theorem safeRemoveDir_exhausts_attempts (pathEx : Nat → Bool)
    (rm : Nat → Except (List Char) Unit)
    (hex : ∀ a, pathEx a = true) (hrm : ∀ a, ∃ e, rm a = .error e) :
    safeRemoveDir pathEx rm defaultMaxRetries =
      (5, [1 * 2000, 2 * 2000, 3 * 2000, 4 * 2000]) := by
  obtain ⟨e1, h1⟩ := hrm 1
  obtain ⟨e2, h2⟩ := hrm 2
  obtain ⟨e3, h3⟩ := hrm 3
  obtain ⟨e4, h4⟩ := hrm 4
  obtain ⟨e5, h5⟩ := hrm 5
  simp [safeRemoveDir, defaultMaxRetries, srLoop, hex, h1, h2, h3, h4, h5]

/-- Witness for C7 at a concrete always-throwing removal oracle. -/
theorem safeRemoveDir_exhausts_attempts_witness :
    (∀ a : Nat, (fun _ : Nat => true) a = true) ∧
    (∀ a : Nat, ∃ e, (fun _ : Nat => (.error (str "EBUSY") : Except (List Char) Unit)) a =
      .error e) ∧
    safeRemoveDir (fun _ => true) (fun _ => .error (str "EBUSY")) defaultMaxRetries =
      (5, [1 * 2000, 2 * 2000, 3 * 2000, 4 * 2000]) :=
  ⟨fun _ => rfl, fun _ => ⟨str "EBUSY", rfl⟩,
   safeRemoveDir_exhausts_attempts _ _ (fun _ => rfl) (fun _ => ⟨str "EBUSY", rfl⟩)⟩

/-! ## Claim C4: resolution without a date folder -/

/-- C4: with `useDateFolder = false` the resolved target never carries a date
segment, and (for metadata satisfying the data-model month invariant) the
path and label consist of exactly the segments year,
`"<2-digit month> - <Spanish month name>"`, and diary. -/
theorem buildTargetInfo_no_dateFolder (root : List Char) (info : FileInfo) :
    (buildTargetInfo root info false).dateFolderName = none ∧
    (1 ≤ info.month → info.month ≤ 12 →
      buildTargetInfo root info false =
        { fullPath := pjoin (pjoin (pjoin root (natStr info.year))
            (pad2 (natStr info.month.toNat) ++ str " - " ++
              MONTH_NAMES.getD info.month.toNat [])) info.diary,
          label := natStr info.year ++ str " / " ++
            (pad2 (natStr info.month.toNat) ++ str " - " ++
              MONTH_NAMES.getD info.month.toNat []) ++ str " / " ++ info.diary,
          dateFolderName := none }) := by
  refine ⟨by simp [buildTargetInfo], fun h1 h2 => ?_⟩
  simp only [buildTargetInfo, getMonthFolderName, if_pos (And.intro h1 h2),
    if_neg Bool.false_ne_true]
  simp [intercalate3, List.append_assoc]

/-- Witness for C4 at Scenario A's metadata. -/
theorem buildTargetInfo_no_dateFolder_witness :
    (buildTargetInfo (str "/d/Archivos") ⟨1989, 12, str "La Tercera", some 11⟩
        false).dateFolderName = none ∧
    ((1 : Int) ≤ 12 → (12 : Int) ≤ 12 →
      buildTargetInfo (str "/d/Archivos") ⟨1989, 12, str "La Tercera", some 11⟩ false =
        { fullPath := pjoin (pjoin (pjoin (str "/d/Archivos") (natStr 1989))
            (pad2 (natStr (12 : Int).toNat) ++ str " - " ++
              MONTH_NAMES.getD (12 : Int).toNat [])) (str "La Tercera"),
          label := natStr 1989 ++ str " / " ++
            (pad2 (natStr (12 : Int).toNat) ++ str " - " ++
              MONTH_NAMES.getD (12 : Int).toNat []) ++ str " / " ++ str "La Tercera",
          dateFolderName := none }) :=
  buildTargetInfo_no_dateFolder (str "/d/Archivos") ⟨1989, 12, str "La Tercera", some 11⟩

/-! ## Claim C5: resolution with a date folder -/

/-- C5: with `useDateFolder = true`, a valid month and a positive year, the
resolver appends the date folder `"<day> de <lowercase month> de <year>"`
when a day in `[1,31]` is present and `"<Capitalized month> de <year>"`
otherwise (no day, or a day outside the range). -/
theorem buildTargetInfo_with_dateFolder (root : List Char) (info : FileInfo)
    (h1 : 1 ≤ info.month) (h2 : info.month ≤ 12) (hy : info.year ≠ 0) :
    (∀ d, info.day = some d → 1 ≤ d → d ≤ 31 →
      buildTargetInfo root info true =
        { fullPath := pjoin (pjoin (pjoin (pjoin root (natStr info.year))
            (getMonthFolderName info.month)) info.diary)
            (natStr d ++ str " de " ++ MONTH_NAMES_LOWER.getD info.month.toNat [] ++
              str " de " ++ natStr info.year),
          label := natStr info.year ++ str " / " ++ getMonthFolderName info.month ++
            str " / " ++ info.diary ++ str " / " ++
            (natStr d ++ str " de " ++ MONTH_NAMES_LOWER.getD info.month.toNat [] ++
              str " de " ++ natStr info.year),
          dateFolderName := some (natStr d ++ str " de " ++
            MONTH_NAMES_LOWER.getD info.month.toNat [] ++ str " de " ++
            natStr info.year) }) ∧
    ((info.day = none ∨ ∃ d, info.day = some d ∧ (d < 1 ∨ 31 < d)) →
      buildTargetInfo root info true =
        { fullPath := pjoin (pjoin (pjoin (pjoin root (natStr info.year))
            (getMonthFolderName info.month)) info.diary)
            ((ciUpper ((MONTH_NAMES_LOWER.getD info.month.toNat []).headD ' ') ::
              (MONTH_NAMES_LOWER.getD info.month.toNat []).tail) ++
              str " de " ++ natStr info.year),
          label := natStr info.year ++ str " / " ++ getMonthFolderName info.month ++
            str " / " ++ info.diary ++ str " / " ++
            ((ciUpper ((MONTH_NAMES_LOWER.getD info.month.toNat []).headD ' ') ::
              (MONTH_NAMES_LOWER.getD info.month.toNat []).tail) ++
              str " de " ++ natStr info.year),
          dateFolderName := some ((ciUpper
              ((MONTH_NAMES_LOWER.getD info.month.toNat []).headD ' ') ::
              (MONTH_NAMES_LOWER.getD info.month.toNat []).tail) ++
              str " de " ++ natStr info.year) }) := by
  have hmn : (MONTH_NAMES_LOWER.getD info.month.toNat []).isEmpty = false :=
    monthLower_not_empty _ (by omega) (by omega)
  have hcond : ¬(¬(1 ≤ info.month ∧ info.month ≤ 12) ∨ info.year = 0) := by
    push_neg
    exact ⟨⟨h1, h2⟩, hy⟩
  constructor
  · intro d hd hd1 hd31
    have hif : ¬d = 0 ∧ 1 ≤ d ∧ d ≤ 31 := ⟨by omega, hd1, hd31⟩
    simp only [buildTargetInfo, getDateFolderName, if_neg hcond, hmn,
      Bool.false_eq_true, if_false, hd, if_pos hif]
    simp [intercalate4, List.append_assoc]
  · intro hcase
    rcases hcase with hnone | ⟨d, hd, hrange⟩
    · simp only [buildTargetInfo, getDateFolderName, if_neg hcond, hmn,
        Bool.false_eq_true, if_false, hnone]
      simp [intercalate4, List.append_assoc]
    · have hif : ¬(¬d = 0 ∧ 1 ≤ d ∧ d ≤ 31) := by omega
      simp only [buildTargetInfo, getDateFolderName, if_neg hcond, hmn,
        Bool.false_eq_true, if_false, hd, if_neg hif]
      simp [intercalate4, List.append_assoc]

/-- Witness for C5 at Scenario B's metadata (`TV Grama`, December 1989, no
day): the date folder is `"Diciembre de 1989"`. -/
theorem buildTargetInfo_with_dateFolder_witness :
    (buildTargetInfo (str "/d/Archivos") ⟨1989, 12, str "TV Grama", none⟩
        true).dateFolderName = some (str "Diciembre de 1989") ∧
    (1 : Int) ≤ 12 ∧ (12 : Int) ≤ 12 ∧ (1989 : Nat) ≠ 0 := by
  have h := (buildTargetInfo_with_dateFolder (str "/d/Archivos")
    ⟨1989, 12, str "TV Grama", none⟩ (by decide) (by decide) (by decide)).2
      (Or.inl rfl)
  refine ⟨?_, by decide, by decide, by decide⟩
  rw [h]
  decide

/-! ## Claim C10: totality of month-folder naming -/

/-- C10: for a month outside `[1,12]`, `getMonthFolderName` falls back to the
clamped `"<NN> - Mes"` name and target resolution never appends a date
folder; `buildTargetInfo` stays total and never indexes the month table. -/
theorem getMonthFolderName_total (m : Int) (h : m < 1 ∨ 12 < m) :
    getMonthFolderName m =
      pad2 (natStr (max 0 (min m 99)).toNat) ++ str " - Mes" ∧
    ∀ (root : List Char) (info : FileInfo) (u : Bool), info.month = m →
      (buildTargetInfo root info u).dateFolderName = none ∧
      (buildTargetInfo root info u).fullPath =
        pjoin (pjoin (pjoin root (natStr info.year)) (getMonthFolderName m))
          info.diary := by
  have hcond : ¬(1 ≤ m ∧ m ≤ 12) := by omega
  constructor
  · simp [getMonthFolderName, if_neg hcond]
  · intro root info u hm
    have hdf : getDateFolderName info = none := by
      simp [getDateFolderName, hm]
      omega
    constructor
    · simp [buildTargetInfo, hdf, ite_self]
    · simp [buildTargetInfo, hdf, ite_self, hm]

/-- Characterization of the per-file loop: processed counts the successful
files, the error list is the concatenation of the per-file error strings,
and one progress event per file is emitted, indexed from `i`. -/
theorem runBatch_spec (w : World) (cy : Nat) (del : Bool) (n : Nat) :
    ∀ (files : List (List Char)) (i : Nat),
    (runBatch w cy del n files i).1 = files.countP (fileOk w cy) ∧
    (runBatch w cy del n files i).2.1 = files.flatMap (perFileErrors w cy del) ∧
    (runBatch w cy del n files i).2.2.1 =
      (files.enumFrom i).map (fun p => fileProgress n p.1 (basenameL p.2))
  | [], i => by simp [runBatch]
  | fp :: rest, i => by
    have IH := runBatch_spec w cy del n rest (i + 1)
    rcases hpf : processFileM w cy (basenameL fp) with ⟨e | u, effs⟩
    · refine ⟨?_, ?_, ?_⟩
      · simp [runBatch, hpf, IH.1, List.countP_cons, fileOk, Nat.add_comm]
      · simp [runBatch, hpf, IH.2.1, perFileErrors]
      · simp [runBatch, hpf, IH.2.2]
    · cases del with
      | false =>
        refine ⟨?_, ?_, ?_⟩
        · simp [runBatch, hpf, IH.1, List.countP_cons, fileOk, Nat.add_comm]
        · simp [runBatch, hpf, IH.2.1, perFileErrors]
        · simp [runBatch, hpf, IH.2.2]
      | true =>
        cases hd : w.deleteResult (basenameL fp) with
        | error de =>
          refine ⟨?_, ?_, ?_⟩
          · simp [runBatch, hpf, hd, IH.1, List.countP_cons, fileOk, Nat.add_comm]
          · simp [runBatch, hpf, hd, IH.2.1, perFileErrors]
          · simp [runBatch, hpf, hd, IH.2.2]
        | ok du =>
          refine ⟨?_, ?_, ?_⟩
          · simp [runBatch, hpf, hd, IH.1, List.countP_cons, fileOk, Nat.add_comm]
          · simp [runBatch, hpf, hd, IH.2.1, perFileErrors]
          · simp [runBatch, hpf, hd, IH.2.2]

theorem mem_range'_bounds : ∀ (n s m : Nat), m ∈ List.range' s n → s ≤ m ∧ m < s + n
  | 0, s, m => by simp [List.range']
  | n + 1, s, m => by
    simp only [List.range', List.mem_cons]
    rintro (rfl | h)
    · omega
    · have := mem_range'_bounds n (s + 1) m h
      omega

theorem pairwise_range'_lt : ∀ (n s : Nat), (List.range' s n).Pairwise (· < ·)
  | 0, s => by simp [List.range']
  | n + 1, s => by
    simp only [List.range']
    refine List.Pairwise.cons ?_ (pairwise_range'_lt n (s + 1))
    intro b hb
    exact Nat.lt_of_lt_of_le (Nat.lt_succ_self s) (mem_range'_bounds n (s + 1) b hb).1

/-- The `current` fields of the 0/per-file/100 progress sequence form a
non-decreasing chain. -/
theorem pairwise_progress_currents (N : Nat) :
    (0 :: (List.range' 0 N ++ [N])).Pairwise (· ≤ ·) := by
  refine List.Pairwise.cons (fun b _ => Nat.zero_le b) ?_
  refine List.pairwise_append.mpr ⟨?_, ?_, ?_⟩
  · exact (pairwise_range'_lt N 0).imp Nat.le_of_lt
  · simp
  · intro a ha b hb
    simp only [List.mem_singleton] at hb
    have hab := mem_range'_bounds N 0 a ha
    omega

/-- The per-file progress events carry exactly the file indices as their
`current` fields. -/
theorem currents_of_batch_progress (n : Nat) :
    ∀ (files : List (List Char)) (i : Nat),
    ((files.enumFrom i).map
      (fun p => fileProgress n p.1 (basenameL p.2))).map ProcessingProgress.current =
      List.range' i files.length
  | [], i => by simp [List.range']
  | fp :: rest, i => by
    simp only [List.enumFrom, List.map_cons, List.length_cons, List.range']
    exact congrArg _ (currents_of_batch_progress n rest (i + 1))

/-! ## Character-class facts used by the pattern-1 correctness proof -/

/-- ASCII letters (either case): the characters a month word may consist of. -/
def isAlphaChar (c : Char) : Prop :=
  (97 ≤ c.toNat ∧ c.toNat ≤ 122) ∨ (65 ≤ c.toNat ∧ c.toNat ≤ 90)

instance (c : Char) : Decidable (isAlphaChar c) := by
  unfold isAlphaChar
  infer_instance

theorem digit_not_ws {c : Char} (h : isDigitChar c = true) : isWSChar c = false := by
  simp [isDigitChar] at h
  simp [isWSChar]
  omega

theorem digit_is_word {c : Char} (h : isDigitChar c = true) : isWordChar c = true := by
  simp [isDigitChar] at h
  simp [isWordChar]
  omega

theorem digit_ne_dot {c : Char} (h : isDigitChar c = true) : c ≠ '.' := by
  intro he
  subst he
  exact absurd h (by decide)

theorem digit_ne_hyphen {c : Char} (h : isDigitChar c = true) : c ≠ '-' := by
  intro he
  subst he
  exact absurd h (by decide)

theorem alpha_not_ws {c : Char} (h : isAlphaChar c) : isWSChar c = false := by
  rcases h with h | h <;> · simp [isWSChar]; omega

theorem alpha_is_word {c : Char} (h : isAlphaChar c) : isWordChar c = true := by
  rcases h with h | h <;> · simp [isWordChar]; omega

theorem alpha_is_dotCh {c : Char} (h : isAlphaChar c) : isDotCh c = true := by
  rcases h with h | h <;> · simp [isDotCh]; omega

theorem alpha_ne_dot {c : Char} (h : isAlphaChar c) : c ≠ '.' := by
  intro he
  subst he
  exact absurd h (by decide)

theorem alpha_ne_hyphen {c : Char} (h : isAlphaChar c) : c ≠ '-' := by
  intro he
  subst he
  exact absurd h (by decide)

theorem word_not_ws {c : Char} (h : isWordChar c = true) : isWSChar c = false := by
  simp [isWordChar] at h
  simp [isWSChar]
  omega

theorem word_ne_hyphen {c : Char} (h : isWordChar c = true) : c ≠ '-' := by
  intro he
  subst he
  exact absurd h (by decide)

theorem ws_ne_hyphen {c : Char} (h : isWSChar c = true) : c ≠ '-' := by
  intro he
  subst he
  exact absurd h (by decide)

theorem ciLower_d_ne_hyphen {c : Char} (h : (ciLower c == 'd') = true) : c ≠ '-' := by
  intro he
  subst he
  exact absurd h (by decide)

theorem ciLower_e_ne_hyphen {c : Char} (h : (ciLower c == 'e') = true) : c ≠ '-' := by
  intro he
  subst he
  exact absurd h (by decide)

theorem ciLower_l_ne_hyphen {c : Char} (h : (ciLower c == 'l') = true) : c ≠ '-' := by
  intro he
  subst he
  exact absurd h (by decide)

/-- Inversion of ASCII case folding: a character whose lower-casing is a
lowercase letter is itself a letter. -/
theorem ciLower_alpha_inv {c k : Char} (h : ciLower c = k)
    (hk : 97 ≤ k.toNat ∧ k.toNat ≤ 122) : isAlphaChar c := by
  by_cases hc : 65 ≤ c.toNat ∧ c.toNat ≤ 90
  · exact Or.inr hc
  · left
    rw [ciLower, if_neg hc] at h
    rw [h]
    exact hk

/-! ## Trimming lemmas -/

theorem dropWhile_self_of_all {p : Char → Bool} {l : List Char}
    (h : ∀ c ∈ l, p c = false) : l.dropWhile p = l := by
  cases l with
  | nil => rfl
  | cons c t =>
    rw [List.dropWhile_cons_of_neg]
    simp [h c (by simp)]

theorem rstripWS_of_all {l : List Char} (h : ∀ c ∈ l, isWSChar c = true) :
    rstripWS l = [] := by
  have : l.reverse.dropWhile isWSChar = [] := by
    rw [List.dropWhile_eq_nil_iff]
    intro c hc
    exact h c (List.mem_reverse.mp hc)
  simp [rstripWS, this]

theorem rstripWS_cons_of_not_all {c : Char} {l : List Char}
    (h : ¬∀ x ∈ l, isWSChar x = true) : rstripWS (c :: l) = c :: rstripWS l := by
  have hne : l.reverse.dropWhile isWSChar ≠ [] := by
    rw [Ne, List.dropWhile_eq_nil_iff]
    intro hall
    exact h (fun x hx => hall x (List.mem_reverse.mpr hx))
  rw [rstripWS, List.reverse_cons, List.dropWhile_append]
  simp only [List.isEmpty_iff, hne, if_false]
  simp [rstripWS]

theorem rstripWS_cons_of_all {c : Char} {l : List Char}
    (hl : ∀ x ∈ l, isWSChar x = true) (hc : isWSChar c = false) :
    rstripWS (c :: l) = [c] := by
  rw [rstripWS, List.reverse_cons,
    List.dropWhile_append_of_pos (fun x hx => hl x (List.mem_reverse.mp hx))]
  simp [hc]

theorem dropWhile_idem (p : Char → Bool) (l : List Char) :
    (l.dropWhile p).dropWhile p = l.dropWhile p := by
  induction l with
  | nil => rfl
  | cons a t ih =>
    by_cases h : p a
    · simp [List.dropWhile_cons_of_pos h, ih]
    · simp [List.dropWhile_cons_of_neg h]

theorem rstripWS_idem (l : List Char) : rstripWS (rstripWS l) = rstripWS l := by
  simp [rstripWS, List.reverse_reverse, dropWhile_idem]

theorem ltrim_rstrip_comm (l : List Char) :
    (rstripWS l).dropWhile isWSChar = rstripWS (l.dropWhile isWSChar) := by
  induction l with
  | nil => rfl
  | cons c t ih =>
    by_cases hc : isWSChar c = true
    · by_cases hall : ∀ x ∈ t, isWSChar x = true
      · rw [rstripWS_of_all (fun x hx => by
          rcases List.mem_cons.mp hx with rfl | hx
          · exact hc
          · exact hall x hx)]
        rw [List.dropWhile_cons_of_pos hc, List.dropWhile_eq_nil_iff.mpr hall]
        rfl
      · rw [rstripWS_cons_of_not_all hall, List.dropWhile_cons_of_pos hc,
          List.dropWhile_cons_of_pos hc, ih]
    · have hc' : isWSChar c = false := by
        revert hc
        cases isWSChar c <;> simp
      by_cases hall : ∀ x ∈ t, isWSChar x = true
      · rw [rstripWS_cons_of_all hall hc', List.dropWhile_cons_of_neg hc,
          List.dropWhile_cons_of_neg hc, rstripWS_cons_of_all hall hc']
      · rw [rstripWS_cons_of_not_all hall, List.dropWhile_cons_of_neg hc,
          List.dropWhile_cons_of_neg hc, rstripWS_cons_of_not_all hall]

theorem jsTrim_rstrip (l : List Char) : jsTrim (rstripWS l) = jsTrim l := by
  simp only [jsTrim, ltrim_rstrip_comm, rstripWS_idem]

theorem jsTrim_idem (l : List Char) : jsTrim (jsTrim l) = jsTrim l := by
  simp only [jsTrim, ltrim_rstrip_comm, rstripWS_idem, dropWhile_idem]

theorem jsTrim_ne_nil_has_non_ws {l : List Char} (h : jsTrim l ≠ []) :
    ∃ c ∈ l, isWSChar c = false := by
  by_contra hno
  push_neg at hno
  apply h
  have hall : ∀ c ∈ l, isWSChar c = true := fun c hc => by
    have hx := hno c hc
    revert hx
    cases isWSChar c <;> simp
  simp only [jsTrim]
  rw [List.dropWhile_eq_nil_iff.mpr hall]
  rfl

theorem stripExt_eq_self {s : List Char} (h : ∀ c ∈ s, c ≠ '.') :
    stripExt s = s := by
  have hnil : s.reverse.dropWhile (fun c => !(c == '.')) = [] := by
    rw [List.dropWhile_eq_nil_iff]
    intro c hc
    simp [h c (List.mem_reverse.mp hc)]
  simp only [stripExt, hnil]

/-! ## Pattern-1 matcher analysis

A successful `p1AfterHyphen` consumes its whole input through whitespace,
digit and word runs and case-insensitive `de`/`del` literals, none of which
can be a hyphen, so a successful input never contains `'-'`. This forces the
lazy diary loop to stop exactly where the constructed separator sits. -/

theorem p1YearEnd_no_hyphen {r ys : List Char} (h : p1YearEnd r = some ys) :
    '-' ∉ r := by
  intro hmem
  rw [p1YearEnd] at h
  split at h
  · exact absurd h (by simp)
  · split at h
    · rename_i h1 h2
      have hsplit := List.takeWhile_append_dropWhile (p := isWSChar) (l := r)
      rw [← hsplit] at hmem
      rcases List.mem_append.mp hmem with hm | hm
      · exact absurd (List.mem_takeWhile_imp hm) (by decide)
      · have hd := List.all_eq_true.mp h2.2 _ hm
        exact absurd hd (by decide)
    · exact absurd h (by simp)

theorem p1DeYear_no_hyphen {r ys : List Char} (h : p1DeYear r = some ys) :
    '-' ∉ r := by
  intro hmem
  cases r with
  | nil => simp at hmem
  | cons d r1 =>
    cases r1 with
    | nil =>
      exact Option.noConfusion h
    | cons e r2 =>
      rw [p1DeYear] at h
      by_cases hde : (ciLower d == 'd' && ciLower e == 'e') = true
      · obtain ⟨hd1, hd2⟩ : (ciLower d == 'd') = true ∧ (ciLower e == 'e') = true := by
          simpa using hde
        cases hY : p1YearEnd r2 with
        | some v =>
          rcases List.mem_cons.mp hmem with h1 | hmem1
          · exact ciLower_d_ne_hyphen hd1 h1.symm
          · rcases List.mem_cons.mp hmem1 with h2 | hmem2
            · exact ciLower_e_ne_hyphen hd2 h2.symm
            · exact p1YearEnd_no_hyphen hY hmem2
        | none =>
          cases r2 with
          | nil => simp [jsAlt, hde, hY] at h
          | cons l r3 =>
            have h' : ciLower l = 'l' ∧ p1YearEnd r3 = some ys := by
              simpa [jsAlt, hde, hY] using h
            have hl3 : (ciLower l == 'l') = true := by simp [h'.1]
            rcases List.mem_cons.mp hmem with h1 | hmem1
            · exact ciLower_d_ne_hyphen hd1 h1.symm
            · rcases List.mem_cons.mp hmem1 with h2 | hmem2
              · exact ciLower_e_ne_hyphen hd2 h2.symm
              · rcases List.mem_cons.mp hmem2 with h3 | hmem3
                · exact ciLower_l_ne_hyphen hl3 h3.symm
                · exact p1YearEnd_no_hyphen h'.2 hmem3
      · have hde' : (ciLower d == 'd' && ciLower e == 'e') = false := by
          revert hde
          cases (ciLower d == 'd' && ciLower e == 'e') <;> simp
        cases r2 with
        | nil => simp [jsAlt, hde'] at h
        | cons l r3 => simp [jsAlt, hde'] at h

theorem p1AfterHyphen_no_hyphen {r : List Char}
    {x : List Char × List Char × List Char}
    (h : p1AfterHyphen r = some x) : '-' ∉ r := by
  intro hmem
  simp only [p1AfterHyphen, dropWS, takeWS] at h
  split at h
  · exact Option.noConfusion h
  · split at h
    · exact Option.noConfusion h
    · split at h
      · rename_i d e r4 heq1
        split at h
        · rename_i hde
          obtain ⟨hd1, hd2⟩ : (ciLower d == 'd') = true ∧ (ciLower e == 'e') = true := by
            simpa using hde
          split at h
          · exact Option.noConfusion h
          · split at h
            · exact Option.noConfusion h
            · split at h
              · exact Option.noConfusion h
              · split at h
                · rename_i ys heq2
                  -- successful path: decompose the input into its runs
                  rw [← List.takeWhile_append_dropWhile (p := isWSChar) (l := r)]
                    at hmem
                  rcases List.mem_append.mp hmem with hA | hmem1
                  · exact absurd (List.mem_takeWhile_imp hA) (by decide)
                  · rw [← List.takeWhile_append_dropWhile (p := isDigitChar)
                      (l := List.dropWhile isWSChar r)] at hmem1
                    rcases List.mem_append.mp hmem1 with hB | hmem2
                    · exact absurd (List.mem_takeWhile_imp hB) (by decide)
                    · rw [← List.takeWhile_append_dropWhile (p := isWSChar)
                        (l := List.dropWhile isDigitChar
                          (List.dropWhile isWSChar r))] at hmem2
                      rcases List.mem_append.mp hmem2 with hC | hmem3
                      · exact absurd (List.mem_takeWhile_imp hC) (by decide)
                      · rw [heq1] at hmem3
                        rcases List.mem_cons.mp hmem3 with h1 | hmem4
                        · exact ciLower_d_ne_hyphen hd1 h1.symm
                        · rcases List.mem_cons.mp hmem4 with h2 | hmem5
                          · exact ciLower_e_ne_hyphen hd2 h2.symm
                          · rw [← List.takeWhile_append_dropWhile (p := isWSChar)
                              (l := r4)] at hmem5
                            rcases List.mem_append.mp hmem5 with hD | hmem6
                            · exact absurd (List.mem_takeWhile_imp hD) (by decide)
                            · rw [← List.takeWhile_append_dropWhile
                                (p := isWordChar)
                                (l := List.dropWhile isWSChar r4)] at hmem6
                              rcases List.mem_append.mp hmem6 with hE | hmem7
                              · exact absurd (List.mem_takeWhile_imp hE) (by decide)
                              · rw [← List.takeWhile_append_dropWhile
                                  (p := isWSChar)
                                  (l := List.dropWhile isWordChar
                                    (List.dropWhile isWSChar r4))] at hmem7
                                rcases List.mem_append.mp hmem7 with hF | hmem8
                                · exact absurd (List.mem_takeWhile_imp hF) (by decide)
                                · exact p1DeYear_no_hyphen heq2 hmem8
                · exact Option.noConfusion h
        · exact Option.noConfusion h
      · exact Option.noConfusion h

/-- If anything non-whitespace is left of the constructed `" - "` separator,
pattern 1 cannot match at that split: the matcher would have to swallow the
separator's hyphen, which no consumable class contains. -/
theorem p1Sep_fail {D2 S : List Char} (hex : ∃ c ∈ D2, isWSChar c = false) :
    p1Sep (D2 ++ ' ' :: '-' :: ' ' :: S) = none := by
  have hne : D2.dropWhile isWSChar ≠ [] := by
    rw [Ne, List.dropWhile_eq_nil_iff]
    intro hall
    obtain ⟨c, hc, hcf⟩ := hex
    rw [hall c hc] at hcf
    exact Bool.noConfusion hcf
  have hf : (D2.dropWhile isWSChar).isEmpty = false := by
    cases hEmp : (D2.dropWhile isWSChar).isEmpty with
    | false => rfl
    | true => exact absurd (List.isEmpty_iff.mp hEmp) hne
  obtain ⟨f, F, hF⟩ := List.exists_cons_of_ne_nil hne
  rw [p1Sep, dropWS, List.dropWhile_append, hf]
  simp only [Bool.false_eq_true, if_false, hF, List.cons_append]
  split
  · rename_i r2 heq
    have hf2 : f = '-' := (List.cons.injEq _ _ _ _).mp heq |>.1
    subst hf2
    have hr2 : r2 = F ++ ' ' :: '-' :: ' ' :: S :=
      ((List.cons.injEq _ _ _ _).mp heq).2.symm
    subst hr2
    cases hres : p1AfterHyphen (F ++ ' ' :: '-' :: ' ' :: S) with
    | none => rfl
    | some x =>
      exact absurd (by simp : '-' ∈ F ++ ' ' :: '-' :: ' ' :: S)
        (p1AfterHyphen_no_hyphen hres)
  · rfl

/-- Pattern 1 succeeds at the split where only whitespace precedes the
separator, producing exactly the (day, month word, year) captures. -/
theorem p1Sep_success {W ds M ys : List Char}
    (hW : ∀ c ∈ W, isWSChar c = true)
    (hds1 : ∀ c ∈ ds, isDigitChar c = true) (hds2 : ds ≠ []) (hds3 : ds.length ≤ 2)
    (hM1 : M ≠ []) (hM2 : ∀ c ∈ M, isAlphaChar c)
    (hys1 : ∀ c ∈ ys, isDigitChar c = true) (hys2 : ys.length = 4) :
    p1Sep (W ++ '-' :: ' ' :: (ds ++ ' ' :: 'd' :: 'e' :: ' ' ::
      (M ++ ' ' :: 'd' :: 'e' :: ' ' :: ys))) = some (ds, M, ys) := by
  obtain ⟨d0, ds', rfl⟩ := List.exists_cons_of_ne_nil hds2
  obtain ⟨m0, M', rfl⟩ := List.exists_cons_of_ne_nil hM1
  have hys_ne : ys ≠ [] := by
    intro he
    subst he
    simp at hys2
  obtain ⟨y0, ys', rfl⟩ := List.exists_cons_of_ne_nil hys_ne
  have hd0 : isDigitChar d0 = true := hds1 d0 (by simp)
  have hm0 : isAlphaChar m0 := hM2 m0 (by simp)
  have hy0 : isDigitChar y0 = true := hys1 y0 (by simp)
  have h1 : List.dropWhile isWSChar
      (W ++ '-' :: ' ' :: ((d0 :: ds') ++ ' ' :: 'd' :: 'e' :: ' ' ::
        ((m0 :: M') ++ ' ' :: 'd' :: 'e' :: ' ' :: (y0 :: ys')))) =
      '-' :: ' ' :: ((d0 :: ds') ++ ' ' :: 'd' :: 'e' :: ' ' ::
        ((m0 :: M') ++ ' ' :: 'd' :: 'e' :: ' ' :: (y0 :: ys'))) := by
    rw [List.dropWhile_append_of_pos hW, List.dropWhile_cons_of_neg (by decide)]
  rw [p1Sep, dropWS, h1]
  show p1AfterHyphen (' ' :: ((d0 :: ds') ++ ' ' :: 'd' :: 'e' :: ' ' ::
    ((m0 :: M') ++ ' ' :: 'd' :: 'e' :: ' ' :: (y0 :: ys')))) = _
  simp only [p1AfterHyphen, dropWS, takeWS]
  have e1 : List.dropWhile isWSChar (' ' :: ((d0 :: ds') ++ ' ' :: 'd' :: 'e' :: ' ' ::
      ((m0 :: M') ++ ' ' :: 'd' :: 'e' :: ' ' :: (y0 :: ys')))) =
      (d0 :: ds') ++ ' ' :: 'd' :: 'e' :: ' ' ::
        ((m0 :: M') ++ ' ' :: 'd' :: 'e' :: ' ' :: (y0 :: ys')) := by
    rw [List.dropWhile_cons_of_pos (by decide), List.cons_append,
      List.dropWhile_cons_of_neg (by simp [digit_not_ws hd0])]
  rw [e1]
  have e2 : List.takeWhile isDigitChar ((d0 :: ds') ++ ' ' :: 'd' :: 'e' :: ' ' ::
      ((m0 :: M') ++ ' ' :: 'd' :: 'e' :: ' ' :: (y0 :: ys'))) = d0 :: ds' := by
    rw [List.takeWhile_append_of_pos hds1, List.takeWhile_cons_of_neg (by decide),
      List.append_nil]
  rw [e2]
  have e3 : List.dropWhile isDigitChar ((d0 :: ds') ++ ' ' :: 'd' :: 'e' :: ' ' ::
      ((m0 :: M') ++ ' ' :: 'd' :: 'e' :: ' ' :: (y0 :: ys'))) =
      ' ' :: 'd' :: 'e' :: ' ' ::
        ((m0 :: M') ++ ' ' :: 'd' :: 'e' :: ' ' :: (y0 :: ys')) := by
    rw [List.dropWhile_append_of_pos hds1, List.dropWhile_cons_of_neg (by decide)]
  rw [e3]
  rw [if_neg (by
    push_neg
    refine ⟨by simp, ?_⟩
    simpa using hds3)]
  rw [List.takeWhile_cons_of_pos (by decide), List.takeWhile_cons_of_neg (by decide)]
  rw [if_neg (by simp)]
  rw [List.dropWhile_cons_of_pos (by decide), List.dropWhile_cons_of_neg (by decide)]
  dsimp only
  rw [if_pos (by decide)]
  have e4 : List.takeWhile isWSChar (' ' :: ((m0 :: M') ++ ' ' :: 'd' :: 'e' :: ' ' ::
      (y0 :: ys'))) = [' '] := by
    rw [List.takeWhile_cons_of_pos (by decide), List.cons_append,
      List.takeWhile_cons_of_neg (by simp [alpha_not_ws hm0])]
  rw [e4]
  rw [if_neg (by simp)]
  have e5 : List.dropWhile isWSChar (' ' :: ((m0 :: M') ++ ' ' :: 'd' :: 'e' :: ' ' ::
      (y0 :: ys'))) =
      (m0 :: M') ++ ' ' :: 'd' :: 'e' :: ' ' :: (y0 :: ys') := by
    rw [List.dropWhile_cons_of_pos (by decide), List.cons_append,
      List.dropWhile_cons_of_neg (by simp [alpha_not_ws hm0]), ← List.cons_append]
  rw [e5]
  have e6 : List.takeWhile isWordChar ((m0 :: M') ++ ' ' :: 'd' :: 'e' :: ' ' ::
      (y0 :: ys')) = m0 :: M' := by
    rw [List.takeWhile_append_of_pos (fun c hc => alpha_is_word (hM2 c hc)),
      List.takeWhile_cons_of_neg (by decide), List.append_nil]
  rw [e6]
  have e7 : List.dropWhile isWordChar ((m0 :: M') ++ ' ' :: 'd' :: 'e' :: ' ' ::
      (y0 :: ys')) = ' ' :: 'd' :: 'e' :: ' ' :: (y0 :: ys') := by
    rw [List.dropWhile_append_of_pos (fun c hc => alpha_is_word (hM2 c hc)),
      List.dropWhile_cons_of_neg (by decide)]
  rw [e7]
  rw [if_neg (by simp)]
  rw [List.takeWhile_cons_of_pos (by decide), List.takeWhile_cons_of_neg (by decide)]
  rw [if_neg (by simp)]
  rw [List.dropWhile_cons_of_pos (by decide), List.dropWhile_cons_of_neg (by decide)]
  have hY : p1YearEnd (' ' :: (y0 :: ys')) = some (y0 :: ys') := by
    rw [p1YearEnd, takeWS, dropWS]
    rw [List.takeWhile_cons_of_pos (by decide),
      List.takeWhile_cons_of_neg (by simp [digit_not_ws hy0])]
    rw [if_neg (by simp)]
    rw [List.dropWhile_cons_of_pos (by decide),
      List.dropWhile_cons_of_neg (by simp [digit_not_ws hy0])]
    rw [if_pos ⟨hys2, List.all_eq_true.mpr hys1⟩]
  have e8 : p1DeYear ('d' :: 'e' :: ' ' :: (y0 :: ys')) = some (y0 :: ys') := by
    rw [p1DeYear]
    dsimp only
    rw [if_pos (by decide), hY]
    rfl
  rw [e8]

/-- The lazy diary loop of pattern 1 on a constructed
`"<diary> - <day> de <month> de <year>"` input: it stops at the first split
whose left part carries all of the diary's non-whitespace content, capturing
the diary without its trailing whitespace. -/
theorem p1Go_main {ds M ys : List Char}
    (hds1 : ∀ c ∈ ds, isDigitChar c = true) (hds2 : ds ≠ []) (hds3 : ds.length ≤ 2)
    (hM1 : M ≠ []) (hM2 : ∀ c ∈ M, isAlphaChar c)
    (hys1 : ∀ c ∈ ys, isDigitChar c = true) (hys2 : ys.length = 4) :
    ∀ (D2 pre : List Char), (∃ c ∈ D2, isWSChar c = false) →
      (∀ c ∈ D2, isDotCh c = true) →
      p1Go pre (D2 ++ ' ' :: '-' :: ' ' :: (ds ++ ' ' :: 'd' :: 'e' :: ' ' ::
        (M ++ ' ' :: 'd' :: 'e' :: ' ' :: ys))) =
        some (pre ++ rstripWS D2, ds, M, ys)
  | [], _pre, hex, _ => by simp at hex
  | c :: D3, pre, hex, hdot => by
    have hc_dot : isDotCh c = true := hdot c (by simp)
    rw [List.cons_append, p1Go, if_pos hc_dot]
    by_cases hall : ∀ x ∈ D3, isWSChar x = true
    · have hc_ws : isWSChar c = false := by
        rcases hex with ⟨x, hx, hxf⟩
        rcases List.mem_cons.mp hx with rfl | hx3
        · exact hxf
        · rw [hall x hx3] at hxf
          exact Bool.noConfusion hxf
      have hW' : ∀ x ∈ D3 ++ [' '], isWSChar x = true := fun x hx => by
        rcases List.mem_append.mp hx with h | h
        · exact hall x h
        · simp at h
          subst h
          decide
      have hsep := p1Sep_success hW' hds1 hds2 hds3 hM1 hM2 hys1 hys2
      simp only [List.append_assoc, List.singleton_append] at hsep
      rw [hsep]
      rw [rstripWS_cons_of_all hall hc_ws]
    · have hex3 : ∃ x ∈ D3, isWSChar x = false := by
        push_neg at hall
        obtain ⟨x, hx, hxne⟩ := hall
        refine ⟨x, hx, ?_⟩
        revert hxne
        cases isWSChar x <;> simp
      have hfail := @p1Sep_fail D3
        (ds ++ ' ' :: 'd' :: 'e' :: ' ' ::
          (M ++ ' ' :: 'd' :: 'e' :: ' ' :: ys)) hex3
      rw [hfail]
      have hdot3 : ∀ x ∈ D3, isDotCh x = true := fun x hx => hdot x (by simp [hx])
      rw [p1Go_main hds1 hds2 hds3 hM1 hM2 hys1 hys2 D3 (pre ++ [c]) hex3 hdot3]
      rw [rstripWS_cons_of_not_all hall]
      simp

/-! ## Claim C1: the day-level naming convention parses correctly -/

theorem lookup_some_mem {β : Type} :
    ∀ (l : List (List Char × β)) (k : List Char) (v : β),
      l.lookup k = some v → (k, v) ∈ l
  | [], k, v, h => by simp [List.lookup] at h
  | (a, b) :: t, k, v, h => by
    rw [List.lookup] at h
    split at h
    · rename_i hbeq
      have hka : k = a := by simpa using hbeq
      rw [Option.some.injEq] at h
      simp [hka, h.symm]
    · exact List.mem_cons_of_mem _ (lookup_some_mem t k v h)

/-- Every entry of the month table maps a non-empty lowercase-ASCII key to a
month number in `[1,12]`. -/
theorem spanishMonths_facts :
    ∀ p ∈ spanishMonths, 1 ≤ p.2 ∧ p.2 ≤ 12 ∧ p.1 ≠ [] ∧
      ∀ c ∈ p.1, 97 ≤ c.toNat ∧ c.toNat ≤ 122 := by decide

/-- C1 (amended): for every file name of the day-level form
`"<Diary> - <day> de <MonthName> de <year>"` whose diary is non-empty after
trimming and contains no `'.'` and no line terminator, whose day is a one- or
two-digit number in `[1,31]`, whose month name case-insensitively matches the
Spanish month table (value `m`), and whose four-digit year lies in
`[1900, currentYear]`, `parseFileName` succeeds with exactly
`{year, month := m, day, diary := trimmed diary}`. -/
theorem parseFileName_valid_day_pattern (cy : Nat) (D ds M ys : List Char) (m : Nat)
    (hD1 : jsTrim D ≠ [])
    (hD2 : ∀ c ∈ D, isDotCh c = true ∧ c ≠ '.')
    (hds1 : ∀ c ∈ ds, isDigitChar c = true) (hds2 : 1 ≤ ds.length)
    (hds3 : ds.length ≤ 2) (hds4 : 1 ≤ parseDigits ds) (hds5 : parseDigits ds ≤ 31)
    (hM : spanishMonths.lookup (M.map ciLower) = some m)
    (hys1 : ∀ c ∈ ys, isDigitChar c = true) (hys2 : ys.length = 4)
    (hys3 : 1900 ≤ parseDigits ys) (hys4 : parseDigits ys ≤ cy) :
    parseFileName cy (D ++ str " - " ++ ds ++ str " de " ++ M ++ str " de " ++ ys) =
      some ⟨parseDigits ys, (m : Int), jsTrim D, some (parseDigits ds)⟩ := by
  have hkey := spanishMonths_facts _ (lookup_some_mem _ _ _ hM)
  have hM1 : M ≠ [] := by
    intro he
    subst he
    exact hkey.2.2.1 rfl
  have hM2 : ∀ c ∈ M, isAlphaChar c := fun c hc =>
    ciLower_alpha_inv rfl (hkey.2.2.2 _ (List.mem_map_of_mem _ hc))
  have hds_ne : ds ≠ [] := by
    intro he
    subst he
    simp at hds2
  have hshape : D ++ str " - " ++ ds ++ str " de " ++ M ++ str " de " ++ ys =
      D ++ ' ' :: '-' :: ' ' :: (ds ++ ' ' :: 'd' :: 'e' :: ' ' ::
        (M ++ ' ' :: 'd' :: 'e' :: ' ' :: ys)) := by
    have l1 : str " - " = [' ', '-', ' '] := rfl
    have l2 : str " de " = [' ', 'd', 'e', ' '] := rfl
    rw [l1, l2]
    simp [List.append_assoc]
  rw [hshape, parseFileName]
  have hnodot : ∀ c ∈ D ++ ' ' :: '-' :: ' ' :: (ds ++ ' ' :: 'd' :: 'e' :: ' ' ::
      (M ++ ' ' :: 'd' :: 'e' :: ' ' :: ys)), c ≠ '.' := by
    refine List.forall_mem_append.mpr ⟨fun c hc => (hD2 c hc).2, ?_⟩
    refine List.forall_mem_cons.mpr ⟨by decide, ?_⟩
    refine List.forall_mem_cons.mpr ⟨by decide, ?_⟩
    refine List.forall_mem_cons.mpr ⟨by decide, ?_⟩
    refine List.forall_mem_append.mpr ⟨fun c hc => digit_ne_dot (hds1 c hc), ?_⟩
    refine List.forall_mem_cons.mpr ⟨by decide, ?_⟩
    refine List.forall_mem_cons.mpr ⟨by decide, ?_⟩
    refine List.forall_mem_cons.mpr ⟨by decide, ?_⟩
    refine List.forall_mem_cons.mpr ⟨by decide, ?_⟩
    refine List.forall_mem_append.mpr ⟨fun c hc => alpha_ne_dot (hM2 c hc), ?_⟩
    refine List.forall_mem_cons.mpr ⟨by decide, ?_⟩
    refine List.forall_mem_cons.mpr ⟨by decide, ?_⟩
    refine List.forall_mem_cons.mpr ⟨by decide, ?_⟩
    refine List.forall_mem_cons.mpr ⟨by decide, ?_⟩
    exact fun c hc => digit_ne_dot (hys1 c hc)
  rw [stripExt_eq_self hnodot]
  have hexD : ∃ c ∈ D, isWSChar c = false := jsTrim_ne_nil_has_non_ws hD1
  have hdotD : ∀ c ∈ D, isDotCh c = true := fun c hc => (hD2 c hc).1
  have hp1 : p1Match (D ++ ' ' :: '-' :: ' ' :: (ds ++ ' ' :: 'd' :: 'e' :: ' ' ::
      (M ++ ' ' :: 'd' :: 'e' :: ' ' :: ys))) = some (rstripWS D, ds, M, ys) := by
    rw [p1Match, p1Go_main hds1 hds_ne hds3 hM1 hM2 hys1 hys2 D [] hexD hdotD]
    simp
  have hm12 : (1 : Int) ≤ (m : Int) ∧ (m : Int) ≤ 12 := by
    constructor
    · exact_mod_cast hkey.1
    · exact_mod_cast hkey.2.1
  have hexfull : extract0 (D ++ ' ' :: '-' :: ' ' :: (ds ++ ' ' :: 'd' :: 'e' :: ' ' ::
      (M ++ ' ' :: 'd' :: 'e' :: ' ' :: ys))) =
      some ⟨parseDigits ys, (m : Int), jsTrim D, some (parseDigits ds)⟩ := by
    rw [extract0, hp1]
    dsimp only [Option.map]
    rw [monthLookup, hM]
    dsimp only [Option.getD]
    rw [jsTrim_rstrip]
  have hvalid : validInfo cy
      ⟨parseDigits ys, (m : Int), jsTrim D, some (parseDigits ds)⟩ = true := by
    have hempty : (jsTrim D).isEmpty = false := by
      cases hE : (jsTrim D).isEmpty with
      | true => exact absurd (List.isEmpty_iff.mp hE) hD1
      | false => rfl
    simp only [validInfo, Bool.and_eq_true, decide_eq_true_eq]
    refine ⟨⟨⟨⟨hys3, hys4⟩, hm12.1, hm12.2⟩, ?_, ?_⟩, hds4, hds5⟩
    · simp [hempty]
    · rw [jsTrim_idem]
      exact List.length_pos.mpr hD1
  rw [extractors, tryPatterns, hexfull]
  dsimp only
  rw [if_pos hvalid]
  simp [jsTrim_idem]

/-- Counterexample to C1 as stated: the diary `"Revista A.B"` satisfies every
condition of the claim (non-empty after trimming; day 11 in `[1,31]`;
`diciembre` in the month table; 1989 in `[1900, 2026]`), yet `parseFileName`
returns no match instead of the claimed metadata — the extension-stripping
step removes everything from the diary's last dot onwards. -/
theorem parseFileName_dot_diary_counterexample :
    jsTrim (str "Revista A.B") ≠ [] ∧
    (1 ≤ (str "11").length ∧ (str "11").length ≤ 2 ∧
      1 ≤ parseDigits (str "11") ∧ parseDigits (str "11") ≤ 31) ∧
    spanishMonths.lookup ((str "diciembre").map ciLower) = some 12 ∧
    (1900 ≤ parseDigits (str "1989") ∧ parseDigits (str "1989") ≤ 2026) ∧
    parseFileName 2026 (str "Revista A.B" ++ str " - " ++ str "11" ++ str " de " ++
      str "diciembre" ++ str " de " ++ str "1989") = none := by
  refine ⟨by decide, ⟨by decide, by decide, by decide, by decide⟩, by decide,
    ⟨by decide, by decide⟩, by decide⟩

/-- Witness for the amended C1 at Scenario A's file name. -/
theorem parseFileName_valid_day_pattern_witness :
    jsTrim (str "La Tercera") ≠ [] ∧
    (∀ c ∈ str "La Tercera", isDotCh c = true ∧ c ≠ '.') ∧
    (∀ c ∈ str "11", isDigitChar c = true) ∧
    1 ≤ (str "11").length ∧ (str "11").length ≤ 2 ∧
    1 ≤ parseDigits (str "11") ∧ parseDigits (str "11") ≤ 31 ∧
    spanishMonths.lookup ((str "diciembre").map ciLower) = some 12 ∧
    (∀ c ∈ str "1989", isDigitChar c = true) ∧
    (str "1989").length = 4 ∧
    1900 ≤ parseDigits (str "1989") ∧ parseDigits (str "1989") ≤ 2026 ∧
    parseFileName 2026 (str "La Tercera" ++ str " - " ++ str "11" ++ str " de " ++
        str "diciembre" ++ str " de " ++ str "1989") =
      some ⟨parseDigits (str "1989"), (12 : Int), jsTrim (str "La Tercera"),
        some (parseDigits (str "11"))⟩ := by
  refine ⟨by decide, by decide, by decide, by decide, by decide, by decide,
    by decide, by decide, by decide, by decide, by decide, by decide, ?_⟩
  exact parseFileName_valid_day_pattern 2026 (str "La Tercera") (str "11")
    (str "diciembre") (str "1989") 12 (by decide) (by decide) (by decide)
    (by decide) (by decide) (by decide) (by decide) (by decide) (by decide)
    (by decide) (by decide) (by decide)

/-! ## Claim C2: behaviour when the destination side is missing -/

/-- A world in which the Dropbox base directory exists but the `Archivos`
destination root under it does not; one well-formed selected archive. -/
def worldNoArchivos : World :=
  { pathExists := fun p => !(p == pjoin (str "/h/Dropbox") (str "Archivos")),
    dropboxPath := str "/h/Dropbox",
    listing := [str "A - 1 de enero de 2000.zip"],
    isFile := fun _ => true,
    ensureTempResult := fun _ => .ok (),
    extractResult := fun _ => .ok (),
    extractedEntries := fun _ => [str "pg1.jpg"],
    organizeResult := fun _ => .ok (),
    deleteResult := fun _ => .ok () }

/-- A world in which no path exists at all (in particular the Dropbox base
directory is missing). -/
def worldNoDropbox : World :=
  { worldNoArchivos with pathExists := fun _ => false }

/-- Counterexample to C2 as stated: the destination root
(`<dropbox>/Archivos`) does not exist, yet the batch runs to completion with
`success = true`, `processed = 1` and a non-empty effect trace — the code
only ever checks the Dropbox base directory, and `fs.ensureDir` creates the
missing root. -/
theorem processFiles_missing_archivos_counterexample :
    worldNoArchivos.pathExists
      (pjoin worldNoArchivos.dropboxPath (str "Archivos")) = false ∧
    (processFilesM worldNoArchivos 2026 (str "/in")
      [str "A - 1 de enero de 2000.zip"] false).1.success = true ∧
    (processFilesM worldNoArchivos 2026 (str "/in")
      [str "A - 1 de enero de 2000.zip"] false).1.processed = 1 ∧
    (processFilesM worldNoArchivos 2026 (str "/in")
      [str "A - 1 de enero de 2000.zip"] false).2.2 ≠ [] := by
  refine ⟨by decide, by decide, by decide, by decide⟩

/-- C2 (amended): when the Dropbox base directory — the directory the code
actually requires — does not exist, `processFiles` fails fatally: `success =
false`, a human-readable error, `processed = 0`, no progress events and no
filesystem effects. -/
theorem processFiles_missing_dropbox_fails (w : World) (cy : Nat)
    (inputPath : List Char) (sel : List (List Char)) (del : Bool)
    (h : w.pathExists w.dropboxPath = false) :
    (processFilesM w cy inputPath sel del).1.success = false ∧
    (processFilesM w cy inputPath sel del).1.processed = 0 ∧
    (processFilesM w cy inputPath sel del).1.errors = [] ∧
    ((processFilesM w cy inputPath sel del).1.error).isSome = true ∧
    (processFilesM w cy inputPath sel del).2.1 = [] ∧
    (processFilesM w cy inputPath sel del).2.2 = [] := by
  cases hin : w.pathExists inputPath <;> simp [processFilesM, hin, h]

/-- Witness for the amended C2 at a concrete world. -/
theorem processFiles_missing_dropbox_fails_witness :
    worldNoDropbox.pathExists worldNoDropbox.dropboxPath = false ∧
    ((processFilesM worldNoDropbox 2026 (str "/in") [] false).1.success = false ∧
     (processFilesM worldNoDropbox 2026 (str "/in") [] false).1.processed = 0 ∧
     (processFilesM worldNoDropbox 2026 (str "/in") [] false).1.errors = [] ∧
     ((processFilesM worldNoDropbox 2026 (str "/in") [] false).1.error).isSome = true ∧
     (processFilesM worldNoDropbox 2026 (str "/in") [] false).2.1 = [] ∧
     (processFilesM worldNoDropbox 2026 (str "/in") [] false).2.2 = []) :=
  ⟨by decide,
   processFiles_missing_dropbox_fails worldNoDropbox 2026 (str "/in") [] false
     (by decide)⟩

/-! ## Claims C6 and C8: per-file failure isolation -/

/-- C6: in a batch that passes the preconditions, a file whose processing
throws contributes exactly one `"Error procesando <name>: <detail>"` string,
is not counted in `processed` (which counts exactly the successful files),
and the batch still terminates with `success = true`. -/
theorem processFiles_per_file_error (w : World) (cy : Nat) (inputPath : List Char)
    (sel : List (List Char)) (del : Bool)
    (hin : w.pathExists inputPath = true)
    (hdb : w.pathExists w.dropboxPath = true)
    (hne : (selectedFilesM w cy inputPath sel).isEmpty = false)
    (i : Nat) (hi : i < (selectedFilesM w cy inputPath sel).length)
    (e : List Char)
    (he : (processFileM w cy
      (basenameL ((selectedFilesM w cy inputPath sel)[i]))).1 = .error e) :
    (processFilesM w cy inputPath sel del).1.success = true ∧
    (processFilesM w cy inputPath sel del).1.errors =
      (selectedFilesM w cy inputPath sel).flatMap (perFileErrors w cy del) ∧
    perFileErrors w cy del ((selectedFilesM w cy inputPath sel)[i]) =
      [str "Error procesando " ++
        basenameL ((selectedFilesM w cy inputPath sel)[i]) ++
        str ": " ++ e] ∧
    (processFilesM w cy inputPath sel del).1.processed =
      (selectedFilesM w cy inputPath sel).countP (fileOk w cy) ∧
    fileOk w cy ((selectedFilesM w cy inputPath sel)[i]) = false := by
  have hb := runBatch_spec w cy del (selectedFilesM w cy inputPath sel).length
    (selectedFilesM w cy inputPath sel) 0
  refine ⟨?_, ?_, ?_, ?_, ?_⟩
  · simp [processFilesM, hin, hdb, hne]
  · simp [processFilesM, hin, hdb, hne, hb.2.1]
  · simp [perFileErrors, he]
  · simp [processFilesM, hin, hdb, hne, hb.1]
  · simp [fileOk, he]

/-- C8: with `deleteOriginals` set, a file whose processing succeeds but
whose original cannot be deleted afterwards is still counted in `processed`
and contributes exactly one `"Advertencia"`-prefixed warning; the batch ends
with `success = true`. -/
theorem processFiles_delete_warning (w : World) (cy : Nat) (inputPath : List Char)
    (sel : List (List Char))
    (hin : w.pathExists inputPath = true)
    (hdb : w.pathExists w.dropboxPath = true)
    (hne : (selectedFilesM w cy inputPath sel).isEmpty = false)
    (i : Nat) (hi : i < (selectedFilesM w cy inputPath sel).length)
    (hok : (processFileM w cy
      (basenameL ((selectedFilesM w cy inputPath sel)[i]))).1 = .ok ())
    (e : List Char)
    (hdel : w.deleteResult
      (basenameL ((selectedFilesM w cy inputPath sel)[i])) = .error e) :
    (processFilesM w cy inputPath sel true).1.success = true ∧
    (processFilesM w cy inputPath sel true).1.processed =
      (selectedFilesM w cy inputPath sel).countP (fileOk w cy) ∧
    fileOk w cy ((selectedFilesM w cy inputPath sel)[i]) = true ∧
    (processFilesM w cy inputPath sel true).1.errors =
      (selectedFilesM w cy inputPath sel).flatMap (perFileErrors w cy true) ∧
    perFileErrors w cy true ((selectedFilesM w cy inputPath sel)[i]) =
      [str "Advertencia: No se pudo eliminar el archivo original " ++
        basenameL ((selectedFilesM w cy inputPath sel)[i])] := by
  have hb := runBatch_spec w cy true (selectedFilesM w cy inputPath sel).length
    (selectedFilesM w cy inputPath sel) 0
  refine ⟨?_, ?_, ?_, ?_, ?_⟩
  · simp [processFilesM, hin, hdb, hne]
  · simp [processFilesM, hin, hdb, hne, hb.1]
  · simp [fileOk, hok]
  · simp [processFilesM, hin, hdb, hne, hb.2.1]
  · simp [perFileErrors, hok, hdel]

/-- A fully healthy world: every path exists, one well-formed archive,
every effectful step succeeds. -/
def worldOk : World :=
  { pathExists := fun _ => true,
    dropboxPath := str "/h/Dropbox",
    listing := [str "A - 1 de enero de 2000.zip"],
    isFile := fun _ => true,
    ensureTempResult := fun _ => .ok (),
    extractResult := fun _ => .ok (),
    extractedEntries := fun _ => [str "pg1.jpg"],
    organizeResult := fun _ => .ok (),
    deleteResult := fun _ => .ok () }

/-- `worldOk`, except extraction yields zero entries (Scenario C). -/
def worldEmptyExtraction : World :=
  { worldOk with extractedEntries := fun _ => [] }

/-- `worldOk`, except deleting the original archive fails (Scenario D). -/
def worldDeleteFails : World :=
  { worldOk with deleteResult := fun _ => .error (str "EPERM") }

/-- The selection used by the concrete batch witnesses. -/
def selOne : List (List Char) := [str "A - 1 de enero de 2000.zip"]

/-- Witness for C6: a `.zip` whose extraction yields zero entries produces
one per-file error and the batch still succeeds. -/
theorem processFiles_per_file_error_witness :
    worldEmptyExtraction.pathExists (str "/in") = true ∧
    worldEmptyExtraction.pathExists worldEmptyExtraction.dropboxPath = true ∧
    (selectedFilesM worldEmptyExtraction 2026 (str "/in") selOne).isEmpty = false ∧
    (processFileM worldEmptyExtraction 2026
      (basenameL ((selectedFilesM worldEmptyExtraction 2026 (str "/in")
        selOne).get ⟨0, by decide⟩))).1 =
      .error (str "No se extrajeron archivos del archivo comprimido") ∧
    ((processFilesM worldEmptyExtraction 2026 (str "/in") selOne false).1.success =
      true ∧
     (processFilesM worldEmptyExtraction 2026 (str "/in") selOne false).1.errors =
       (selectedFilesM worldEmptyExtraction 2026 (str "/in") selOne).flatMap
         (perFileErrors worldEmptyExtraction 2026 false) ∧
     (processFilesM worldEmptyExtraction 2026 (str "/in") selOne false).1.processed =
       (selectedFilesM worldEmptyExtraction 2026 (str "/in") selOne).countP
         (fileOk worldEmptyExtraction 2026)) := by
  refine ⟨by decide, by decide, by decide, by decide, ?_⟩
  have h := processFiles_per_file_error worldEmptyExtraction 2026 (str "/in") selOne
    false (by decide) (by decide) (by decide) 0 (by decide)
    (str "No se extrajeron archivos del archivo comprimido") (by decide)
  exact ⟨h.1, h.2.1, h.2.2.2.1⟩

/-- Witness for C8: successful processing followed by a failing delete of
the original still counts the file as processed and adds one warning. -/
theorem processFiles_delete_warning_witness :
    worldDeleteFails.pathExists (str "/in") = true ∧
    worldDeleteFails.pathExists worldDeleteFails.dropboxPath = true ∧
    (selectedFilesM worldDeleteFails 2026 (str "/in") selOne).isEmpty = false ∧
    (processFileM worldDeleteFails 2026
      (basenameL ((selectedFilesM worldDeleteFails 2026 (str "/in")
        selOne).get ⟨0, by decide⟩))).1 = .ok () ∧
    worldDeleteFails.deleteResult
      (basenameL ((selectedFilesM worldDeleteFails 2026 (str "/in")
        selOne).get ⟨0, by decide⟩)) = .error (str "EPERM") ∧
    ((processFilesM worldDeleteFails 2026 (str "/in") selOne true).1.success = true ∧
     (processFilesM worldDeleteFails 2026 (str "/in") selOne true).1.processed =
       (selectedFilesM worldDeleteFails 2026 (str "/in") selOne).countP
         (fileOk worldDeleteFails 2026) ∧
     (processFilesM worldDeleteFails 2026 (str "/in") selOne true).1.errors =
       (selectedFilesM worldDeleteFails 2026 (str "/in") selOne).flatMap
         (perFileErrors worldDeleteFails 2026 true)) := by
  refine ⟨by decide, by decide, by decide, by decide, by decide, ?_⟩
  have h := processFiles_delete_warning worldDeleteFails 2026 (str "/in") selOne
    (by decide) (by decide) (by decide) 0 (by decide) (by decide)
    (str "EPERM") (by decide)
  exact ⟨h.1, h.2.1, h.2.2.2.1⟩

/-! ## Claim C9: progress emission -/

/-- C9: a batch that passes the preconditions emits one initial event
(current 0, 0%), one event per file before processing it (current = file
index, percentage = index/total·100) and one completion event (current =
total, 100%); the `current` fields of the whole stream are monotonically
non-decreasing. -/
theorem processFiles_progress_events (w : World) (cy : Nat) (inputPath : List Char)
    (sel : List (List Char)) (del : Bool)
    (hin : w.pathExists inputPath = true)
    (hdb : w.pathExists w.dropboxPath = true)
    (hne : (selectedFilesM w cy inputPath sel).isEmpty = false) :
    (processFilesM w cy inputPath sel del).2.1 =
      { current := 0, total := (selectedFilesM w cy inputPath sel).length,
        currentFile := [], status := str "Iniciando procesamiento...",
        percentage := 0 } ::
      (((selectedFilesM w cy inputPath sel).enumFrom 0).map
        (fun p => fileProgress (selectedFilesM w cy inputPath sel).length p.1
          (basenameL p.2)) ++
       [{ current := (selectedFilesM w cy inputPath sel).length,
          total := (selectedFilesM w cy inputPath sel).length,
          currentFile := [], status := str "Procesamiento completado",
          percentage := 100 }]) ∧
    ((processFilesM w cy inputPath sel del).2.1.map
      ProcessingProgress.current).Pairwise (· ≤ ·) := by
  have hb := runBatch_spec w cy del (selectedFilesM w cy inputPath sel).length
    (selectedFilesM w cy inputPath sel) 0
  have hmain : (processFilesM w cy inputPath sel del).2.1 =
      { current := 0, total := (selectedFilesM w cy inputPath sel).length,
        currentFile := [], status := str "Iniciando procesamiento...",
        percentage := 0 } ::
      (((selectedFilesM w cy inputPath sel).enumFrom 0).map
        (fun p => fileProgress (selectedFilesM w cy inputPath sel).length p.1
          (basenameL p.2)) ++
       [{ current := (selectedFilesM w cy inputPath sel).length,
          total := (selectedFilesM w cy inputPath sel).length,
          currentFile := [], status := str "Procesamiento completado",
          percentage := 100 }]) := by
    simp [processFilesM, hin, hdb, hne, hb.2.2]
  refine ⟨hmain, ?_⟩
  rw [hmain]
  simp only [List.map_cons, List.map_append, List.map_cons, List.map_nil,
    currents_of_batch_progress]
  exact pairwise_progress_currents (selectedFilesM w cy inputPath sel).length

/-- Witness for C9 at a healthy one-file batch. -/
theorem processFiles_progress_events_witness :
    worldOk.pathExists (str "/in") = true ∧
    worldOk.pathExists worldOk.dropboxPath = true ∧
    (selectedFilesM worldOk 2026 (str "/in") selOne).isEmpty = false ∧
    ((processFilesM worldOk 2026 (str "/in") selOne false).2.1 =
      { current := 0, total := (selectedFilesM worldOk 2026 (str "/in") selOne).length,
        currentFile := [], status := str "Iniciando procesamiento...",
        percentage := 0 } ::
      (((selectedFilesM worldOk 2026 (str "/in") selOne).enumFrom 0).map
        (fun p => fileProgress (selectedFilesM worldOk 2026 (str "/in") selOne).length
          p.1 (basenameL p.2)) ++
       [{ current := (selectedFilesM worldOk 2026 (str "/in") selOne).length,
          total := (selectedFilesM worldOk 2026 (str "/in") selOne).length,
          currentFile := [], status := str "Procesamiento completado",
          percentage := 100 }]) ∧
     ((processFilesM worldOk 2026 (str "/in") selOne false).2.1.map
       ProcessingProgress.current).Pairwise (· ≤ ·)) :=
  ⟨by decide, by decide, by decide,
   processFiles_progress_events worldOk 2026 (str "/in") selOne false
     (by decide) (by decide) (by decide)⟩

/-! ## Claim C3: ordered pattern fallback with validation -/

/-- The pattern loop returns `some` exactly when some pattern matches with
valid fields and every earlier syntactically-matching pattern fails
validation. -/
theorem tryPatterns_some_iff (cy : Nat) :
    ∀ (L : List (List Char → Option FileInfo)) (n : List Char) (info : FileInfo),
    tryPatterns cy L n = some info ↔
      ∃ (i : Nat) (h : i < L.length) (r : FileInfo),
        (L.get ⟨i, h⟩) n = some r ∧ validInfo cy r = true ∧
        info = { r with diary := jsTrim r.diary } ∧
        ∀ (j : Nat) (hj : j < i) (r' : FileInfo),
          (L.get ⟨j, Nat.lt_trans hj h⟩) n = some r' → validInfo cy r' = false
  | [], n, info => by simp [tryPatterns]
  | f :: fs, n, info => by
    have IH := tryPatterns_some_iff cy fs n info
    simp only [tryPatterns]
    cases hf : f n with
    | none =>
      rw [IH]
      constructor
      · rintro ⟨i, h, r, hget, hval, hinfo, hmin⟩
        refine ⟨i + 1, by simpa using Nat.succ_lt_succ h, r, by simpa using hget,
          hval, hinfo, ?_⟩
        intro j hj r' hget'
        match j with
        | 0 =>
          simp at hget'
          rw [hf] at hget'
          exact absurd hget' (by simp)
        | j' + 1 =>
          exact hmin j' (by omega) r' (by simpa using hget')
      · rintro ⟨i, h, r, hget, hval, hinfo, hmin⟩
        match i with
        | 0 =>
          simp at hget
          rw [hf] at hget
          exact absurd hget (by simp)
        | i' + 1 =>
          refine ⟨i', by simpa using h, r, by simpa using hget, hval, hinfo, ?_⟩
          intro j hj r' hget'
          exact hmin (j + 1) (by omega) r' (by simpa using hget')
    | some r0 =>
      dsimp only
      by_cases hv : validInfo cy r0 = true
      · rw [if_pos hv]
        constructor
        · intro hinfo
          refine ⟨0, by simp, r0, by simpa using hf, hv, by simpa using hinfo.symm, ?_⟩
          intro j hj r' _
          omega
        · rintro ⟨i, h, r, hget, hval, hinfo, hmin⟩
          match i with
          | 0 =>
            simp at hget
            rw [hf] at hget
            simp at hget
            subst hget
            rw [hinfo]
          | i' + 1 =>
            have := hmin 0 (by omega) r0 (by simpa using hf)
            rw [hv] at this
            exact absurd this (by simp)
      · rw [if_neg hv, IH]
        replace hv : validInfo cy r0 = false := by
          revert hv
          cases validInfo cy r0 <;> simp
        constructor
        · rintro ⟨i, h, r, hget, hval, hinfo, hmin⟩
          refine ⟨i + 1, by simpa using Nat.succ_lt_succ h, r, by simpa using hget,
            hval, hinfo, ?_⟩
          intro j hj r' hget'
          match j with
          | 0 =>
            simp at hget'
            rw [hf] at hget'
            simp at hget'
            subst hget'
            exact hv
          | j' + 1 =>
            exact hmin j' (by omega) r' (by simpa using hget')
        · rintro ⟨i, h, r, hget, hval, hinfo, hmin⟩
          match i with
          | 0 =>
            simp at hget
            rw [hf] at hget
            simp at hget
            subst hget
            rw [hval] at hv
            exact absurd hv (by simp)
          | i' + 1 =>
            refine ⟨i', by simpa using h, r, by simpa using hget, hval, hinfo, ?_⟩
            intro j hj r' hget'
            exact hmin (j + 1) (by omega) r' (by simpa using hget')

/-- The pattern loop returns `none` exactly when no syntactic match passes
validation. -/
theorem tryPatterns_none_iff (cy : Nat) :
    ∀ (L : List (List Char → Option FileInfo)) (n : List Char),
    tryPatterns cy L n = none ↔
      ∀ (i : Nat) (h : i < L.length) (r : FileInfo),
        (L.get ⟨i, h⟩) n = some r → validInfo cy r = false
  | [], n => by simp [tryPatterns]
  | f :: fs, n => by
    have IH := tryPatterns_none_iff cy fs n
    simp only [tryPatterns]
    cases hf : f n with
    | none =>
      rw [IH]
      constructor
      · intro hall i h r hget
        match i with
        | 0 =>
          simp at hget
          rw [hf] at hget
          exact absurd hget (by simp)
        | i' + 1 => exact hall i' (by simpa using h) r (by simpa using hget)
      · intro hall i h r hget
        exact hall (i + 1) (by simpa using Nat.succ_lt_succ h) r (by simpa using hget)
    | some r0 =>
      dsimp only
      by_cases hv : validInfo cy r0 = true
      · rw [if_pos hv]
        constructor
        · intro h
          exact absurd h (by simp)
        · intro hall
          have := hall 0 (by simp) r0 (by simpa using hf)
          rw [hv] at this
          exact absurd this (by simp)
      · replace hv : validInfo cy r0 = false := by
          revert hv
          cases validInfo cy r0 <;> simp
        rw [if_neg (by simp [hv]), IH]
        constructor
        · intro hall i h r hget
          match i with
          | 0 =>
            simp at hget
            rw [hf] at hget
            simp at hget
            subst hget
            exact hv
          | i' + 1 => exact hall i' (by simpa using h) r (by simpa using hget)
        · intro hall i h r hget
          exact hall (i + 1) (by simpa using Nat.succ_lt_succ h) r (by simpa using hget)

/-- C3: `parseFileName` tries the six patterns in their fixed order and
returns the first syntactic match that passes validation; a match whose
fields fail validation yields no partial result and the next pattern is
tried; if no pattern validates, the parser signals no match. -/
theorem parseFileName_first_valid_pattern (cy : Nat) (s : List Char) :
    (∀ info : FileInfo, parseFileName cy s = some info ↔
      ∃ (i : Nat) (h : i < extractors.length) (r : FileInfo),
        (extractors.get ⟨i, h⟩) (stripExt s) = some r ∧ validInfo cy r = true ∧
        info = { r with diary := jsTrim r.diary } ∧
        ∀ (j : Nat) (hj : j < i) (r' : FileInfo),
          (extractors.get ⟨j, Nat.lt_trans hj h⟩) (stripExt s) = some r' →
            validInfo cy r' = false) ∧
    (parseFileName cy s = none ↔
      ∀ (i : Nat) (h : i < extractors.length) (r : FileInfo),
        (extractors.get ⟨i, h⟩) (stripExt s) = some r → validInfo cy r = false) :=
  ⟨fun info => tryPatterns_some_iff cy extractors (stripExt s) info,
   tryPatterns_none_iff cy extractors (stripExt s)⟩

/-- Witness for C10 at month 13. -/
theorem getMonthFolderName_total_witness :
    ((13 : Int) < 1 ∨ (12 : Int) < 13) ∧
    getMonthFolderName 13 = pad2 (natStr (max 0 (min (13 : Int) 99)).toNat) ++
      str " - Mes" ∧
    (buildTargetInfo (str "/d") ⟨1989, 13, str "X", some 5⟩ true).dateFolderName =
      none := by
  have h := getMonthFolderName_total 13 (Or.inr (by decide))
  exact ⟨Or.inr (by decide), h.1, ((h.2 (str "/d") ⟨1989, 13, str "X", some 5⟩ true) rfl).1⟩

end ArchiDrop
